import Mathlib

/-!
Verification of the dental-agent booking core (`src/backend/server.js` and
`src/backend/utils/database-manager.js`).

The JavaScript booking core is shallowly embedded as pure Lean functions over
an explicit store (`DB`).  Every operation follows the source's shape: it
reads the whole store, mutates an in-memory copy, and persists it with a
single `writeDatabase` call at the end of the successful path; failure paths
return before that call.  In the embedding each operation therefore returns
the result together with the *persisted* store: the input store on failure
paths, the mutated store at the point of `writeDatabase` on success.

Dates are modelled as `Nat` (the source compares date strings with `===` and
chronologically via `new Date(..)`; for the ISO dates the system uses, both
coincide with equality/order on the encoded number).  Time labels are
strings, exactly as in the source.  Timestamps (`Date.now()`,
`toISOString()`) are modelled by a `now : Nat` parameter.
-/

namespace Dental

/-- UTF-16-style lexicographic comparison on char lists, mirroring the
comparison used by JavaScript's default `Array.prototype.sort` on the
time-label strings. -/
def charListLe : List Char → List Char → Bool
  | [], _ => true
  | _ :: _, [] => false
  | a :: as, b :: bs => if a = b then charListLe as bs else decide (a < b)

/-- String comparison used to keep slot lists sorted (JS `slots.sort()`). -/
def strLe (a b : String) : Bool := charListLe a.toList b.toList

/-- Insert a time label into a sorted list (helper realising `push` + `sort`). -/
def insertSorted (t : String) : List String → List String
  | [] => [t]
  | x :: xs => if strLe t x then t :: x :: xs else x :: insertSorted t xs

/-- Sort a slot list (JS `slots.sort()`); insertion sort, extensionally the
same as any lexicographic sort. -/
def sortSlots (l : List String) : List String := l.foldr insertSorted []

/-- `if (!slots.includes(t)) { slots.push(t); slots.sort(); }` — idempotent
re-insertion of a released time label, keeping the list sorted. -/
def releaseSlot (l : List String) (t : String) : List String :=
  if l.contains t then l else sortSlots (l ++ [t])

/-- `String(n).padStart(3, '0')` -/
def pad3 (n : Nat) : String :=
  let s := toString n
  if s.length ≥ 3 then s
  else String.mk (List.replicate (3 - s.length) '0') ++ s

/-- `phone.replace(/\D/g, '')` — keep only digit characters. -/
def digitsOf (p : String) : List Char := p.toList.filter Char.isDigit

/-- JS `String.prototype.trim`: strip leading and trailing whitespace. -/
def trimStr (s : String) : String :=
  String.mk (((s.toList.dropWhile Char.isWhitespace).reverse.dropWhile
    Char.isWhitespace).reverse)

/-- JS `String.prototype.toLowerCase` (over the ASCII range used here). -/
def lowerStr (s : String) : String := String.mk (s.toList.map Char.toLower)

/-- `parseInt` on a digit string. -/
def digitsToNat (cs : List Char) : Nat :=
  cs.foldl (fun n c => n * 10 + (c.toNat - 48)) 0

/-- Whether `needle` occurs contiguously inside `haystack`
(JS `String.prototype.includes`). -/
def prefixOf : List Char → List Char → Bool
  | [], _ => true
  | _ :: _, [] => false
  | a :: as, b :: bs => a == b && prefixOf as bs

def infixOf (needle : List Char) : List Char → Bool
  | [] => prefixOf needle []
  | c :: t => prefixOf needle (c :: t) || infixOf needle t

/-- `validatePhoneNumber` (server.js:94-111): strip non-digits, accept exactly
10 digits, or 11 digits starting with '1' (dropping the leading '1');
`some normalized` on success, `none` on a validation failure. -/
def validatePhoneNumber (phone : String) : Option String :=
  if phone == "" then none
  else
    let c := digitsOf phone
    if c.length == 10 then some (String.mk c)
    else if c.length == 11 && c.head? == some '1' then some (String.mk c.tail)
    else none

/-- `normalizePhone` inside `findPatientByPhone`
(database-manager.js:104-113): same digit-stripping and country-code
dropping, but with no 10-digit requirement. -/
def normalizePhone (p : String) : String :=
  if p == "" then ""
  else
    let c := digitsOf p
    if c.length == 11 && c.head? == some '1' then String.mk c.tail
    else String.mk c

/-- Characters accepted by the name regex `/^[a-zA-Z\s\-']+$/`
(39 is the apostrophe code point). -/
def nameCharOk (c : Char) : Bool :=
  c.isAlpha || c.isWhitespace || c == '-' || c.toNat == 39

/-- `validatePatientName` (server.js:113-125). -/
def validatePatientName (name : String) : Option String :=
  if (trimStr name).length < 2 then none
  else if (trimStr name).toList.all nameCharOk then some (trimStr name)
  else none

/-- `validateDateOfBirth` (server.js:127-154); `currentYear` stands for
`new Date().getFullYear()`. -/
def validateDateOfBirth (dob : String) (currentYear : Nat) : Option String :=
  if dob == "" then none
  else if !(dob.length == 8 && dob.toList.all Char.isDigit) then none
  else
    let month := digitsToNat (dob.toList.take 2)
    let day := digitsToNat ((dob.toList.drop 2).take 2)
    let year := digitsToNat (dob.toList.drop 4)
    if month < 1 || month > 12 then none
    else if day < 1 || day > 31 then none
    else if year < 1900 || year > currentYear then none
    else some dob

/-- The fixed insurance list (server.js:157-160). -/
def validInsurances : List String :=
  ["Blue Cross Blue Shield", "Blue Cross", "Aetna", "Cigna", "Delta Dental",
   "MetLife", "United Healthcare", "Humana", "Other Insurance", "No Insurance"]

/-- `validateInsurance` (server.js:156-176): case-insensitive match against
the enumerated set, returning the canonical casing. -/
def validateInsurance (insurance : String) : Option String :=
  if (trimStr insurance).length < 2 then none
  else validInsurances.find? (fun v => lowerStr v == lowerStr (trimStr insurance))

/-- A family-member reference on a primary patient's record. -/
structure FamilyRef where
  name : String
  relationship : String
  addedDate : Nat
  deriving DecidableEq, Repr

/-- A patient record. -/
structure Patient where
  id : String
  fullName : String
  phone : String
  dateOfBirth : String
  insurance : String
  registeredDate : Nat
  familyMembers : List FamilyRef
  deriving DecidableEq, Repr

/-- An appointment record (status is one of "scheduled", "confirmed",
"cancelled"; cancellation is always soft). -/
structure Appointment where
  id : String
  patientId : String
  patientName : String
  relationship : Option String
  date : Nat
  time : String
  type : String
  status : String
  emergencyDetails : Option String
  createdAt : Option Nat
  bookedAt : Option Nat
  cancelledAt : Option Nat
  cancelReason : Option String
  rescheduledFrom : Option (Nat × String)
  rescheduledAt : Option Nat
  deriving DecidableEq, Repr

/-- One day's list of open time labels. -/
structure SlotDay where
  date : Nat
  slots : List String
  deriving DecidableEq, Repr

/-- A stored emergency alert. -/
structure EmergencyAlert where
  id : String
  patientName : String
  emergencyDetails : String
  contactPhone : String
  timestamp : Nat
  status : String
  alertedAt : Nat
  deriving DecidableEq, Repr

/-- The persisted stores (`patients.json`, `appointments.json`,
`available-slots.json`, `emergency-alerts.json`). -/
structure DB where
  patients : List Patient
  appointments : List Appointment
  availableSlots : List SlotDay
  emergencyAlerts : List EmergencyAlert
  deriving DecidableEq, Repr

/-- `a.status !== 'cancelled'` -/
def isActive (a : Appointment) : Bool := a.status != "cancelled"

/-- Replace the first element satisfying `p` by its image under `f`
(JS `array.find(..)` followed by in-place mutation of the found object). -/
def updateFirst {α : Type} (p : α → Bool) (f : α → α) : List α → List α
  | [] => []
  | x :: xs => if p x then f x :: xs else x :: updateFirst p f xs

/-- `db.availableSlots.find(s => s.date === d)` -/
def findSlotDay (rows : List SlotDay) (d : Nat) : Option SlotDay :=
  rows.find? (fun s => s.date == d)

/-- Whether a slot-day row for date `d` exists. -/
def hasRow (rows : List SlotDay) (d : Nat) : Bool := (findSlotDay rows d).isSome

/-- The open list of date `d` ( `[]` when no row exists). -/
def slotsOf (rows : List SlotDay) (d : Nat) : List String :=
  match findSlotDay rows d with
  | some s => s.slots
  | none => []

/-- Mutate the slot list of the first row of date `d` (no-op when absent). -/
def updateSlots (d : Nat) (f : List String → List String)
    (rows : List SlotDay) : List SlotDay :=
  updateFirst (fun s => s.date == d) (fun s => { s with slots := f s.slots }) rows

/-- Soft-cancel an appointment with a cancel reason
(`a.status = 'cancelled'; a.cancelledAt = ...; a.cancelReason = reason`). -/
def mkCancelled (a : Appointment) (reason : String) (now : Nat) : Appointment :=
  { a with status := "cancelled", cancelledAt := some now, cancelReason := some reason }

/-- Release the times of a list of appointments into one slot list, in order
(the loop bodies at server.js:365-370 and 713-717). -/
def releaseAll (cs : List Appointment) (l : List String) : List String :=
  cs.foldl (fun l a => releaseSlot l a.time) l

/-- `cancelIf p reason now` soft-cancels the appointments selected by `p`. -/
def cancelIf (p : Appointment → Bool) (reason : String) (now : Nat)
    (a : Appointment) : Appointment :=
  if p a then mkCancelled a reason now else a

/-- The same-day overwrite step shared by `bookAppointment` (server.js:358-375)
and `bookFamilyAppointments` (server.js:703-722): every appointment matching
`p` (always a same-day, non-cancelled one) has its time released back into
date `d`'s row and is soft-cancelled with `reason`. -/
def overwriteSameDay (σ : DB) (d : Nat) (p : Appointment → Bool)
    (reason : String) (now : Nat) : DB :=
  { σ with
    availableSlots :=
      updateSlots d (releaseAll (σ.appointments.filter p)) σ.availableSlots,
    appointments := σ.appointments.map (cancelIf p reason now) }

/-- Result of `bookAppointment`. -/
inductive BookResult where
  | patientNotFound
  | nameMismatch
  | slotUnavailable
  | booked (a : Appointment)
  deriving DecidableEq, Repr

/-- The `success` flag of the returned JSON. -/
def BookResult.success : BookResult → Bool
  | .booked _ => true
  | _ => false

/-- The appointment record created by `bookAppointment` (server.js:384-394);
`count` is `db.appointments.length` at creation time. -/
def newBookedAppointment (patientId patientName : String) (date : Nat)
    (time atype : String) (emergencyDetails : Option String) (now : Nat)
    (count : Nat) : Appointment :=
  { id := "a" ++ pad3 (count + 1)
    patientId := patientId
    patientName := patientName
    relationship := none
    date := date
    time := time
    type := atype
    status := "scheduled"
    emergencyDetails := emergencyDetails
    createdAt := some now
    bookedAt := none
    cancelledAt := none
    cancelReason := none
    rescheduledFrom := none
    rescheduledAt := none }

/-- `bookAppointment` (server.js:332-404). -/
def bookAppointment (σ : DB) (patientId patientName : String) (date : Nat)
    (time atype : String) (emergencyDetails : Option String) (now : Nat) :
    BookResult × DB :=
  match σ.patients.find? (fun p => p.id == patientId) with
  | none => (.patientNotFound, σ)
  | some patient =>
    if patient.fullName != patientName then (.nameMismatch, σ)
    else
      -- overwrite any existing same-day appointments for this patient
      let σ₁ := overwriteSameDay σ date
        (fun a => a.patientId == patientId && a.date == date && isActive a)
        "overwritten_by_new_booking" now
      -- check whether the slot is still available
      match findSlotDay σ₁.availableSlots date with
      | none => (.slotUnavailable, σ)
      | some daySlots =>
        if !daySlots.slots.contains time then (.slotUnavailable, σ)
        else
          let appointment : Appointment :=
            newBookedAppointment patientId patientName date time atype
              emergencyDetails now σ₁.appointments.length
          (.booked appointment,
            { σ₁ with
              appointments := σ₁.appointments ++ [appointment]
              availableSlots :=
                updateSlots date (fun l => l.filter (fun s => s != time))
                  σ₁.availableSlots })

/-- Result of `cancelAppointment`. -/
inductive CancelResult where
  | notFound
  | alreadyCancelled
  | cancelled (a : Appointment)
  deriving DecidableEq, Repr

def CancelResult.success : CancelResult → Bool
  | .cancelled _ => true
  | _ => false

/-- `cancelAppointment` (server.js:456-511). -/
def cancelAppointment (σ : DB) (appointmentId : String) (now : Nat) :
    CancelResult × DB :=
  match σ.appointments.find? (fun a => a.id == appointmentId) with
  | none => (.notFound, σ)
  | some appointment =>
    if appointment.status == "cancelled" then (.alreadyCancelled, σ)
    else
      let cancelled :=
        { appointment with status := "cancelled", cancelledAt := some now }
      (.cancelled cancelled,
        { σ with
          availableSlots :=
            updateSlots appointment.date (fun l => releaseSlot l appointment.time)
              σ.availableSlots
          appointments :=
            updateFirst (fun a => a.id == appointmentId)
              (fun a => { a with status := "cancelled", cancelledAt := some now })
              σ.appointments })

/-- Result of `cancelAllAppointments`. -/
inductive CancelAllResult where
  | noActiveAppointments
  | cancelledAll (l : List Appointment)
  deriving DecidableEq, Repr

def CancelAllResult.success : CancelAllResult → Bool
  | .cancelledAll _ => true
  | _ => false

/-- `cancelAllAppointments` (server.js:514-573). -/
def cancelAllAppointments (σ : DB) (patientId : String) (now : Nat) :
    CancelAllResult × DB :=
  let actives := σ.appointments.filter
    (fun a => a.patientId == patientId && isActive a)
  if actives.isEmpty then (.noActiveAppointments, σ)
  else
    (.cancelledAll (actives.map (fun a => mkCancelled a "" now)),
      { σ with
        availableSlots :=
          actives.foldl
            (fun rows a => updateSlots a.date (fun l => releaseSlot l a.time) rows)
            σ.availableSlots
        appointments :=
          σ.appointments.map (fun a =>
            if a.patientId == patientId && isActive a then
              { a with status := "cancelled", cancelledAt := some now }
            else a) })

/-- Result of `rescheduleAppointment`. -/
inductive RescheduleResult where
  | notFound
  | slotUnavailable
  | rescheduled (a : Appointment)
  deriving DecidableEq, Repr

def RescheduleResult.success : RescheduleResult → Bool
  | .rescheduled _ => true
  | _ => false

/-- `rescheduleAppointment` (server.js:575-610).  Note the source never
inspects `appointment.status`. -/
def rescheduleAppointment (σ : DB) (appointmentId : String)
    (newDate : Nat) (newTime : String) (now : Nat) : RescheduleResult × DB :=
  match σ.appointments.find? (fun a => a.id == appointmentId) with
  | none => (.notFound, σ)
  | some appointment =>
    match findSlotDay σ.availableSlots newDate with
    | none => (.slotUnavailable, σ)
    | some newDaySlots =>
      if !newDaySlots.slots.contains newTime then (.slotUnavailable, σ)
      else
        let updated :=
          { appointment with
            date := newDate, time := newTime
            rescheduledFrom := some (appointment.date, appointment.time)
            rescheduledAt := some now }
        (.rescheduled updated,
          { σ with
            availableSlots :=
              updateSlots newDate (fun l => l.filter (fun s => s != newTime))
                (updateSlots appointment.date
                  (fun l => releaseSlot l appointment.time) σ.availableSlots)
            appointments :=
              updateFirst (fun a => a.id == appointmentId)
                (fun a =>
                  { a with
                    date := newDate, time := newTime
                    rescheduledFrom := some (a.date, a.time)
                    rescheduledAt := some now })
                σ.appointments })

/-- Result of `searchPatient`: a found patient together with their
non-cancelled appointments and family refs, a miss, or a phone-validation
failure (`validationError: true` in the source). -/
inductive SearchResult where
  | found (p : Patient) (appointments : List Appointment)
      (familyMembers : List FamilyRef)
  | notFound
  | validationError
  deriving DecidableEq, Repr

/-- `findPatientByPhone` (database-manager.js:101-116): both the stored and
the queried phone are normalized before comparison. -/
def findPatientByPhone (patients : List Patient) (phone : String) :
    Option Patient :=
  patients.find? (fun p => normalizePhone p.phone == normalizePhone phone)

/-- Case-insensitive substring name match used as the fallback of
`searchPatient` (server.js:198-204): `fullName.includes(name)` or
`name.includes(fullName)`, both lowercased. -/
def nameMatches (fullName name : String) : Bool :=
  infixOf (lowerStr name).toList (lowerStr fullName).toList ||
  infixOf (lowerStr fullName).toList (lowerStr name).toList

/-- `searchPatient` (server.js:178-230). -/
def searchPatient (σ : DB) (phone : Option String) (name : Option String) :
    SearchResult :=
  let byPhone : Option Patient ⊕ Unit :=
    match phone with
    | none => .inl none
    | some ph =>
      match validatePhoneNumber ph with
      | none => .inr ()          -- validation failure ends the search
      | some n => .inl (findPatientByPhone σ.patients n)
  match byPhone with
  | .inr _ => .validationError
  | .inl first =>
    let patient :=
      match first, name with
      | some p, _ => some p
      | none, some n => σ.patients.find? (fun p => nameMatches p.fullName n)
      | none, none => none
    match patient with
    | some p =>
      .found p
        (σ.appointments.filter (fun a => a.patientId == p.id && isActive a))
        p.familyMembers
    | none => .notFound

/-- Result of `registerNewPatient`. -/
inductive RegisterResult where
  | invalid
  | duplicatePatient (p : Patient)
  | registered (p : Patient)
  deriving DecidableEq, Repr

def RegisterResult.success : RegisterResult → Bool
  | .registered _ => true
  | _ => false

/-- `registerNewPatient` (server.js:406-454); `currentYear` models
`new Date().getFullYear()` inside DOB validation. -/
def registerNewPatient (σ : DB) (fullName phone dateOfBirth insurance : String)
    (currentYear now : Nat) : RegisterResult × DB :=
  match validatePatientName fullName with
  | none => (.invalid, σ)
  | some nameN =>
    match validatePhoneNumber phone with
    | none => (.invalid, σ)
    | some phoneN =>
      match validateDateOfBirth dateOfBirth currentYear with
      | none => (.invalid, σ)
      | some dobN =>
        match validateInsurance insurance with
        | none => (.invalid, σ)
        | some insN =>
          match searchPatient σ (some phoneN) none with
          | .found p _ _ => (.duplicatePatient p, σ)
          | _ =>
            let patient : Patient :=
              { id := "p" ++ pad3 (σ.patients.length + 1)
                fullName := nameN
                phone := phoneN
                dateOfBirth := dobN
                insurance := insN
                registeredDate := now
                familyMembers := [] }
            (.registered patient, { σ with patients := σ.patients ++ [patient] })

/-- Result of `notifyStaffEmergency`.  `duplicateSuppressed` is reported with
`success: true` in the source. -/
inductive NotifyResult where
  | invalid
  | duplicateSuppressed
  | alerted (al : EmergencyAlert)
  deriving DecidableEq, Repr

def NotifyResult.success : NotifyResult → Bool
  | .invalid => false
  | _ => true

/-- `notifyStaffEmergency` (server.js:612-660): validation, then a 10-minute
dedup window keyed on the normalized contact phone, then an appended
`pending` alert. -/
def notifyStaffEmergency (σ : DB) (patientName emergencyDetails contactPhone : String)
    (now : Nat) : NotifyResult × DB :=
  match validatePatientName patientName with
  | none => (.invalid, σ)
  | some nameN =>
    match validatePhoneNumber contactPhone with
    | none => (.invalid, σ)
    | some phoneN =>
      if (trimStr emergencyDetails).length < 5 then (.invalid, σ)
      else
        let tenMinutesAgo := now - 10 * 60 * 1000
        let recentlyAlerted := σ.emergencyAlerts.any (fun alert =>
          alert.contactPhone == phoneN && tenMinutesAgo ≤ alert.alertedAt)
        if recentlyAlerted then (.duplicateSuppressed, σ)
        else
          let alert : EmergencyAlert :=
            { id := "emg_" ++ toString now
              patientName := nameN
              emergencyDetails := trimStr emergencyDetails
              contactPhone := phoneN
              timestamp := now
              status := "pending"
              alertedAt := now }
          (.alerted alert,
            { σ with emergencyAlerts := σ.emergencyAlerts ++ [alert] })

/-- One family member of a `book_family_appointments` request. -/
structure FamArg where
  name : String
  relationship : String
  appointmentType : String
  deriving DecidableEq, Repr

/-- The per-member validation of server.js:682-692. -/
def validFamArg (m : FamArg) : Bool :=
  2 ≤ (trimStr m.name).length && 2 ≤ (trimStr m.relationship).length &&
  2 ≤ (trimStr m.appointmentType).length

/-- Result of `bookFamilyAppointments`.  `insufficientSlots` carries the
preferred day's open list, the proposed alternative date and its first
`needed` slots (server.js:732-741). -/
inductive FamilyResult where
  | primaryNotFound
  | membersRequired
  | invalidMember
  | insufficientSlots (availableSlots : List String) (nextAvailableDate : Nat)
      (nextAvailableSlots : List String)
  | noCapacity
  | booked (l : List Appointment)
  deriving DecidableEq, Repr

def FamilyResult.success : FamilyResult → Bool
  | .booked _ => true
  | _ => false

/-- Lookup of an already-registered family member: same (lowercased) full
name and the primary patient's phone (server.js:706, 776-779). -/
def findFamPatient (patients : List Patient) (primaryPhone famName : String) :
    Option Patient :=
  patients.find? (fun p =>
    lowerStr p.fullName == lowerStr famName && p.phone == primaryPhone)

/-- The allocation loop of `bookFamilyAppointments` (server.js:772-829):
walks the family members in listed order, reusing or creating a patient
record per member, appending one appointment per member at slot index `idx`,
and collecting family refs for the primary record.  The `idx ≥ slots` guard
is the source's mid-loop `break`. -/
def famLoop (now : Nat) (primaryPhone primaryDob primaryIns : String)
    (preferredDate : Nat) (slotsList : List String) :
    List FamArg → Nat → List Patient → List Appointment → List FamilyRef →
    List Patient × List Appointment × List FamilyRef
  | [], _, pats, booked, refs => (pats, booked, refs)
  | m :: rest, idx, pats, booked, refs =>
    if slotsList.length ≤ idx then (pats, booked, refs)
    else
      let found := findFamPatient pats primaryPhone m.name
      let pats' :=
        match found with
        | some _ => pats
        | none =>
          pats ++ [{ id := "p" ++ pad3 (pats.length + 1)
                     fullName := m.name
                     phone := primaryPhone
                     dateOfBirth := primaryDob
                     insurance := primaryIns
                     registeredDate := now
                     familyMembers := [] }]
      let famPatientId :=
        match found with
        | some p => p.id
        | none => "p" ++ pad3 (pats.length + 1)
      let appointment : Appointment :=
        { id := "a" ++ toString now ++ "_" ++ toString idx
          patientId := famPatientId
          patientName := m.name
          relationship := some m.relationship
          date := preferredDate
          time := slotsList.getD idx ""
          type := if m.appointmentType == "" then "General Checkup" else m.appointmentType
          status := "confirmed"
          emergencyDetails := none
          createdAt := none
          bookedAt := some now
          cancelledAt := none
          cancelReason := none
          rescheduledFrom := none
          rescheduledAt := none }
      let refs' :=
        if (refs.find? (fun fm => fm.name == m.name)).isSome then refs
        else refs ++ [{ name := m.name
                        relationship := if m.relationship == "" then "family" else m.relationship
                        addedDate := now }]
      famLoop now primaryPhone primaryDob primaryIns preferredDate slotsList
        rest (idx + 1) pats' (booked ++ [appointment]) refs'

/-- The pre-emption step of `bookFamilyAppointments` (server.js:703-722):
soft-cancel, with reason "overwritten_by_family_booking", every non-cancelled
same-day appointment of the primary patient or of a family member already
registered under the primary's phone, releasing those slots. -/
def famPreempt (σ : DB) (primary : Patient) (familyMembers : List FamArg)
    (preferredDate : Nat) (now : Nat) : DB :=
  let candidates := primary.id ::
    familyMembers.filterMap (fun m =>
      (findFamPatient σ.patients primary.phone m.name).map (fun p => p.id))
  overwriteSameDay σ preferredDate
    (fun a => a.date == preferredDate && isActive a &&
      candidates.contains a.patientId)
    "overwritten_by_family_booking" now

/-- The appointment created first for the primary patient
(server.js:753-763): the first available slot, type `primaryType`. -/
def famPrimaryAppointment (primaryPatientId : String) (primary : Patient)
    (preferredDate : Nat) (slotsList : List String)
    (primaryPatientAppointmentType : String) (now : Nat) : Appointment :=
  { id := "a" ++ toString now ++ "_primary"
    patientId := primaryPatientId
    patientName := primary.fullName
    relationship := none
    date := preferredDate
    time := slotsList.getD 0 ""
    type := primaryPatientAppointmentType
    status := "confirmed"
    emergencyDetails := none
    createdAt := none
    bookedAt := some now
    cancelledAt := none
    cancelReason := none
    rescheduledFrom := none
    rescheduledAt := none }

/-- `bookFamilyAppointments` (server.js:662-852). -/
def bookFamilyAppointments (σ : DB) (primaryPatientId : String)
    (familyMembers : List FamArg) (preferredDate : Nat)
    (primaryPatientAppointmentType : String) (now : Nat) : FamilyResult × DB :=
  match σ.patients.find? (fun p => p.id == primaryPatientId) with
  | none => (.primaryNotFound, σ)
  | some primary =>
    if familyMembers.isEmpty then (.membersRequired, σ)
    else if !familyMembers.all validFamArg then (.invalidMember, σ)
    else
      let totalSlotsNeeded := familyMembers.length + 1
      let σ₁ := famPreempt σ primary familyMembers preferredDate now
      let dateSlots := findSlotDay σ₁.availableSlots preferredDate
      if (dateSlots.map (fun s => s.slots.length)).getD 0 < totalSlotsNeeded then
        -- find next available date with enough slots
        match σ₁.availableSlots.find? (fun s =>
            preferredDate < s.date && totalSlotsNeeded ≤ s.slots.length) with
        | some nextAvailable =>
          (.insufficientSlots ((dateSlots.map (fun s => s.slots)).getD [])
            nextAvailable.date (nextAvailable.slots.take totalSlotsNeeded), σ)
        | none => (.noCapacity, σ)
      else
        let slotsList := (dateSlots.map (fun s => s.slots)).getD []
        let r := famLoop now primary.phone primary.dateOfBirth primary.insurance
          preferredDate slotsList familyMembers 1 σ₁.patients
          [famPrimaryAppointment primaryPatientId primary preferredDate slotsList
            primaryPatientAppointmentType now]
          primary.familyMembers
        let bookedAppointments := r.2.1
        (.booked bookedAppointments,
          { σ₁ with
            patients :=
              updateFirst (fun p => p.id == primaryPatientId)
                (fun p => { p with familyMembers := r.2.2 }) r.1
            appointments := σ₁.appointments ++ bookedAppointments
            availableSlots :=
              updateSlots preferredDate (fun l => l.drop bookedAppointments.length)
                σ₁.availableSlots })

/-! ### Basic list lemmas about the slot-store helpers -/

theorem insertSorted_perm (t : String) (l : List String) :
    List.Perm (insertSorted t l) (t :: l) := by
  induction l with
  | nil => simp [insertSorted]
  | cons x xs ih =>
    simp only [insertSorted]
    split
    · exact .refl _
    · exact .trans (.cons x ih) (.swap t x xs)

theorem sortSlots_perm (l : List String) : List.Perm (sortSlots l) l := by
  induction l with
  | nil => simp [sortSlots]
  | cons x xs ih =>
    simpa [sortSlots] using List.Perm.trans (insertSorted_perm x (sortSlots xs)) (.cons x ih)

theorem mem_releaseSlot {l : List String} {t x : String} :
    x ∈ releaseSlot l t ↔ x ∈ l ∨ x = t := by
  unfold releaseSlot
  split
  · next h =>
    have ht : t ∈ l := by simpa using h
    constructor
    · exact .inl
    · rintro (hx | rfl) <;> assumption
  · rw [(sortSlots_perm _).mem_iff]
    simp

theorem nodup_releaseSlot {l : List String} (t : String) (h : l.Nodup) :
    (releaseSlot l t).Nodup := by
  unfold releaseSlot
  split
  · exact h
  · next ht =>
    refine ((sortSlots_perm _).nodup_iff).2 ?_
    have ht' : t ∉ l := by simpa using ht
    simpa [List.nodup_append, h] using ht'

theorem mem_foldl_releaseSlot {ts : List String} {l : List String} {x : String} :
    x ∈ ts.foldl releaseSlot l ↔ x ∈ l ∨ x ∈ ts := by
  induction ts generalizing l with
  | nil => simp
  | cons t ts ih =>
    simp only [List.foldl_cons, ih, mem_releaseSlot, List.mem_cons]
    tauto

theorem nodup_foldl_releaseSlot {ts : List String} {l : List String}
    (h : l.Nodup) : (ts.foldl releaseSlot l).Nodup := by
  induction ts generalizing l with
  | nil => exact h
  | cons t ts ih => exact ih (nodup_releaseSlot t h)

/-! ### Lemmas about `updateFirst`, `findSlotDay`, `slotsOf`, `updateSlots` -/

theorem updateFirst_of_find?_eq_none {α : Type} {p : α → Bool} {f : α → α}
    {l : List α} (h : l.find? p = none) : updateFirst p f l = l := by
  induction l with
  | nil => rfl
  | cons x xs ih =>
    rw [List.find?_cons] at h
    split at h
    · exact absurd h (by simp)
    · next hx => simp [updateFirst, hx, ih h]

theorem find?_decomp {α : Type} {p : α → Bool} {l : List α} {x : α}
    (h : l.find? p = some x) :
    ∃ l₁ l₂, l = l₁ ++ x :: l₂ ∧ (∀ y ∈ l₁, p y = false) ∧ p x = true := by
  induction l with
  | nil => simp at h
  | cons a as ih =>
    rw [List.find?_cons] at h
    split at h
    · next ha =>
      obtain rfl : a = x := by simpa using h
      exact ⟨[], as, by simp, by simp, ha⟩
    · next ha =>
      obtain ⟨l₁, l₂, rfl, hl₁, hx⟩ := ih h
      exact ⟨a :: l₁, l₂, by simp, by
        intro y hy
        rcases List.mem_cons.1 hy with rfl | hy
        · simpa using ha
        · exact hl₁ y hy, hx⟩

theorem updateFirst_append_of_none {α : Type} {p : α → Bool} (f : α → α)
    {l₁ : List α} (l₂ : List α) (h : ∀ y ∈ l₁, p y = false) :
    updateFirst p f (l₁ ++ l₂) = l₁ ++ updateFirst p f l₂ := by
  induction l₁ with
  | nil => rfl
  | cons a as ih =>
    have ha := h a (by simp)
    simp [updateFirst, ha, ih (fun y hy => h y (List.mem_cons_of_mem _ hy))]

theorem updateFirst_eq_of_find? {α : Type} {p : α → Bool} (f : α → α)
    {l : List α} {x : α} (h : l.find? p = some x) :
    ∃ l₁ l₂, l = l₁ ++ x :: l₂ ∧ (∀ y ∈ l₁, p y = false) ∧ p x = true ∧
      updateFirst p f l = l₁ ++ f x :: l₂ := by
  obtain ⟨l₁, l₂, rfl, hl₁, hx⟩ := find?_decomp h
  refine ⟨l₁, l₂, rfl, hl₁, hx, ?_⟩
  rw [updateFirst_append_of_none f _ hl₁]
  simp [updateFirst, hx]

theorem slotsOf_nil (d : Nat) : slotsOf [] d = [] := rfl

theorem slotsOf_cons (s : SlotDay) (rows : List SlotDay) (d : Nat) :
    slotsOf (s :: rows) d = if s.date = d then s.slots else slotsOf rows d := by
  by_cases h : s.date = d <;>
    simp [slotsOf, findSlotDay, List.find?_cons, h]

theorem hasRow_cons (s : SlotDay) (rows : List SlotDay) (d : Nat) :
    hasRow (s :: rows) d = ((s.date == d) || hasRow rows d) := by
  by_cases h : s.date = d <;>
    simp [hasRow, findSlotDay, List.find?_cons, h]

theorem mem_slotsOf_hasRow {rows : List SlotDay} {d : Nat} {t : String}
    (h : t ∈ slotsOf rows d) : hasRow rows d = true := by
  unfold slotsOf at h
  unfold hasRow
  cases hf : findSlotDay rows d with
  | none => rw [hf] at h; simp at h
  | some s => simp

theorem updateSlots_nil (d : Nat) (f : List String → List String) :
    updateSlots d f [] = [] := rfl

theorem updateSlots_cons (d : Nat) (f : List String → List String)
    (s : SlotDay) (rows : List SlotDay) :
    updateSlots d f (s :: rows) =
      if s.date = d then { s with slots := f s.slots } :: rows
      else s :: updateSlots d f rows := by
  by_cases h : s.date = d <;> simp [updateSlots, updateFirst, h]

theorem slotsOf_updateSlots (rows : List SlotDay) (d d' : Nat)
    (f : List String → List String) :
    slotsOf (updateSlots d f rows) d' =
      if d' = d ∧ hasRow rows d = true then f (slotsOf rows d')
      else slotsOf rows d' := by
  induction rows with
  | nil => simp [updateSlots_nil, slotsOf_nil, hasRow, findSlotDay]
  | cons s rows ih =>
    rw [updateSlots_cons, hasRow_cons]
    by_cases hsd : s.date = d
    · rw [if_pos hsd]
      by_cases hd' : d' = d
      · subst hd'
        simp [slotsOf_cons, hsd]
      · have h1 : ¬ ({ s with slots := f s.slots } : SlotDay).date = d' := by
          simpa using fun h => hd' (h.symm.trans hsd)
        have h2 : ¬ s.date = d' := by simpa using h1
        rw [if_neg (by rintro ⟨rfl, -⟩; exact hd' rfl), slotsOf_cons, slotsOf_cons,
          if_neg h1, if_neg h2]
    · rw [if_neg hsd]
      by_cases hd' : d' = s.date
      · have : ¬ (d' = d ∧ (((s.date == d) || hasRow rows d) = true)) := by
          rintro ⟨rfl, -⟩; exact hsd hd'.symm
        rw [if_neg this, slotsOf_cons, slotsOf_cons, if_pos hd'.symm, if_pos hd'.symm]
      · have hne : ¬ s.date = d' := fun h => hd' h.symm
        rw [slotsOf_cons, slotsOf_cons, if_neg hne, if_neg hne, ih]
        simp [hsd]

theorem hasRow_updateSlots (rows : List SlotDay) (d d' : Nat)
    (f : List String → List String) :
    hasRow (updateSlots d f rows) d' = hasRow rows d' := by
  induction rows with
  | nil => rw [updateSlots_nil]
  | cons s rows ih =>
    rw [updateSlots_cons]
    by_cases hsd : s.date = d
    · rw [if_pos hsd, hasRow_cons, hasRow_cons]
    · rw [if_neg hsd, hasRow_cons, hasRow_cons, ih]

theorem updateSlots_of_not_hasRow {rows : List SlotDay} {d : Nat}
    (f : List String → List String) (h : hasRow rows d = false) :
    updateSlots d f rows = rows := by
  induction rows with
  | nil => rfl
  | cons s rows ih =>
    rw [hasRow_cons, Bool.or_eq_false_iff] at h
    rw [updateSlots_cons, if_neg (by simpa using h.1), ih h.2]

theorem slotsOf_nodup {rows : List SlotDay} (d : Nat)
    (h : ∀ s ∈ rows, s.slots.Nodup) : (slotsOf rows d).Nodup := by
  unfold slotsOf
  cases hf : findSlotDay rows d with
  | none => simp
  | some s => exact h s (List.mem_of_find?_eq_some hf)

theorem slotsNodup_updateSlots {rows : List SlotDay} {d : Nat}
    {f : List String → List String} (hf : ∀ l, l.Nodup → (f l).Nodup)
    (h : ∀ s ∈ rows, s.slots.Nodup) :
    ∀ s ∈ updateSlots d f rows, s.slots.Nodup := by
  induction rows with
  | nil => simp [updateSlots_nil]
  | cons s rows ih =>
    rw [updateSlots_cons]
    split
    · intro x hx
      rcases List.mem_cons.1 hx with rfl | hx
      · exact hf _ (h s (by simp))
      · exact h x (by simp [hx])
    · intro x hx
      rcases List.mem_cons.1 hx with rfl | hx
      · exact h x (by simp)
      · exact ih (fun y hy => h y (by simp [hy])) x hx

/-! ### The coordinator-level invariants

`Inv` is the cross-entity consistency invariant of the spec, in the
directional form the spec itself states for appointments: a non-cancelled
appointment's (date, time) never appears in the corresponding day's open
list (equivalently, an open time label is held by no active appointment).
`UniqActive` (at most one active appointment per (date, time)) and
`SlotsNodup` (each day's open list is duplicate-free, as seeded) make the
store well-formed. -/

/-- Two appointments do not both actively hold the same (date, time). -/
def ActiveRel (a b : Appointment) : Prop :=
  isActive a = true → isActive b = true → a.date = b.date → a.time ≠ b.time

instance : DecidableRel ActiveRel :=
  fun _ _ => by unfold ActiveRel; infer_instance

/-- No active appointment's (date, time) is still listed as open. -/
def Inv (σ : DB) : Prop :=
  ∀ a ∈ σ.appointments, isActive a = true →
    a.time ∉ slotsOf σ.availableSlots a.date

/-- At most one active appointment holds any (date, time). -/
def UniqActive (σ : DB) : Prop := σ.appointments.Pairwise ActiveRel

/-- Every day's open list is duplicate-free. -/
def SlotsNodup (σ : DB) : Prop := ∀ s ∈ σ.availableSlots, s.slots.Nodup

/-- The well-formed stores. -/
def WF (σ : DB) : Prop := Inv σ ∧ UniqActive σ ∧ SlotsNodup σ

instance (σ : DB) : Decidable (Inv σ) := by unfold Inv; infer_instance

instance (σ : DB) : Decidable (UniqActive σ) := by
  unfold UniqActive; infer_instance

instance (σ : DB) : Decidable (SlotsNodup σ) := by
  unfold SlotsNodup; infer_instance

instance (σ : DB) : Decidable (WF σ) := by unfold WF; infer_instance

theorem activeRel_symm : Symmetric ActiveRel := by
  intro a b h hb ha hd
  exact fun he => h ha hb hd.symm he.symm

theorem uniqActive_forall {σ : DB} (h : UniqActive σ) {a b : Appointment}
    (ha : a ∈ σ.appointments) (hb : b ∈ σ.appointments) (hne : a ≠ b) :
    ActiveRel a b :=
  List.Pairwise.forall activeRel_symm h ha hb hne

theorem isActive_mkCancelled (a : Appointment) (reason : String) (now : Nat) :
    isActive (mkCancelled a reason now) = false := by
  simp [isActive, mkCancelled]

/-- `releaseAll` only adds the released times. -/
theorem mem_releaseAll {cs : List Appointment} {l : List String} {t : String} :
    t ∈ releaseAll cs l ↔ t ∈ l ∨ ∃ c ∈ cs, c.time = t := by
  induction cs generalizing l with
  | nil => simp [releaseAll]
  | cons c cs ih =>
    show t ∈ releaseAll cs (releaseSlot l c.time) ↔ _
    rw [ih]
    simp only [mem_releaseSlot, List.mem_cons]
    constructor
    · rintro ((h | h) | ⟨c', hc', ht⟩)
      · exact .inl h
      · exact .inr ⟨c, .inl rfl, h.symm⟩
      · exact .inr ⟨c', .inr hc', ht⟩
    · rintro (h | ⟨c', (rfl | hc'), ht⟩)
      · exact .inl (.inl h)
      · exact .inl (.inr ht.symm)
      · exact .inr ⟨c', hc', ht⟩

theorem nodup_releaseAll {cs : List Appointment} {l : List String}
    (h : l.Nodup) : (releaseAll cs l).Nodup := by
  induction cs generalizing l with
  | nil => exact h
  | cons c cs ih => exact ih (nodup_releaseSlot _ h)

theorem cancelIf_of_not {p : Appointment → Bool} {reason : String} {now : Nat}
    {a : Appointment} (h : p a = false) : cancelIf p reason now a = a := by
  simp [cancelIf, h]

theorem isActive_cancelIf {p : Appointment → Bool} {reason : String} {now : Nat}
    {a : Appointment} (h : isActive (cancelIf p reason now a) = true) :
    isActive a = true ∧ p a = false := by
  by_cases hpa : p a
  · rw [cancelIf, if_pos hpa, isActive_mkCancelled] at h
    exact absurd h (by simp)
  · have hpa' : p a = false := by simpa using hpa
    rw [cancelIf_of_not hpa'] at h
    exact ⟨h, hpa'⟩

/-- The shared same-day overwrite step keeps the store well-formed, provided
the predicate only selects same-day active appointments (which both call
sites guarantee syntactically). -/
theorem overwriteSameDay_WF {σ : DB} {d : Nat} {p : Appointment → Bool}
    {reason : String} {now : Nat}
    (hP : ∀ a, p a = true → a.date = d ∧ isActive a = true)
    (h : WF σ) : WF (overwriteSameDay σ d p reason now) := by
  obtain ⟨hInv, hUniq, hNodup⟩ := h
  refine ⟨?_, ?_, ?_⟩
  · -- Inv
    intro b hb hbact
    rw [show (overwriteSameDay σ d p reason now).appointments =
      σ.appointments.map (cancelIf p reason now) from rfl, List.mem_map] at hb
    obtain ⟨a, ha, rfl⟩ := hb
    obtain ⟨haact, hpa⟩ := isActive_cancelIf hbact
    rw [cancelIf_of_not hpa]
    rw [show (overwriteSameDay σ d p reason now).availableSlots =
      updateSlots d (releaseAll (σ.appointments.filter p)) σ.availableSlots from rfl,
      slotsOf_updateSlots]
    split
    · next hcond =>
      obtain ⟨had, -⟩ := hcond
      intro hmem
      rcases mem_releaseAll.1 hmem with hmem | ⟨c, hc, hct⟩
      · exact hInv a ha haact hmem
      · rw [List.mem_filter] at hc
        obtain ⟨hc, hpc⟩ := hc
        have hane : a ≠ c := by
          rintro rfl; rw [hpa] at hpc; exact absurd hpc (by simp)
        obtain ⟨hcd, hcact⟩ := hP c hpc
        exact uniqActive_forall hUniq ha hc hane haact hcact
          (had.trans hcd.symm) hct.symm
    · exact hInv a ha haact
  · -- UniqActive
    refine List.Pairwise.map (cancelIf p reason now) ?_ hUniq
    intro a b hab h1 h2 h3
    obtain ⟨haact, hpa⟩ := isActive_cancelIf h1
    obtain ⟨hbact, hpb⟩ := isActive_cancelIf h2
    rw [cancelIf_of_not hpa, cancelIf_of_not hpb] at h3 ⊢
    exact hab haact hbact h3
  · -- SlotsNodup
    show ∀ s ∈ updateSlots d (releaseAll (σ.appointments.filter p))
      σ.availableSlots, s.slots.Nodup
    exact slotsNodup_updateSlots (fun l hl => nodup_releaseAll hl) hNodup

/-- An inactive appointment is `ActiveRel`-related to everything. -/
theorem activeRel_of_inactive_left {a : Appointment} (h : isActive a = false)
    (b : Appointment) : ActiveRel a b := by
  intro h1
  rw [h] at h1
  exact absurd h1 (by simp)

theorem activeRel_of_inactive_right {b : Appointment} (h : isActive b = false)
    (a : Appointment) : ActiveRel a b := by
  intro _ h2
  rw [h] at h2
  exact absurd h2 (by simp)

/-- `cancelAppointment` keeps the store well-formed. -/
theorem cancelAppointment_WF (σ : DB) (aid : String) (now : Nat) (h : WF σ) :
    WF (cancelAppointment σ aid now).2 := by
  obtain ⟨hInv, hUniq, hNodup⟩ := h
  unfold cancelAppointment
  cases hfp : σ.appointments.find? (fun a => a.id == aid) with
  | none => exact ⟨hInv, hUniq, hNodup⟩
  | some appt =>
    simp only
    split
    · exact ⟨hInv, hUniq, hNodup⟩
    · next hstat =>
      have hact : isActive appt = true := by
        simp only [isActive, bne]
        simpa using hstat
      obtain ⟨l₁, l₂, hdecomp, hl₁, hpx, hupd⟩ :=
        updateFirst_eq_of_find?
          (fun a => { a with status := "cancelled", cancelledAt := some now }) hfp
      have hfinact :
          isActive ({ appt with status := "cancelled", cancelledAt := some now }) = false := by
        simp [isActive]
      have hUniq' : List.Pairwise ActiveRel (l₁ ++ appt :: l₂) := by
        rw [← hdecomp]; exact hUniq
      obtain ⟨hP₁, hP₂, hcross⟩ := List.pairwise_append.1 hUniq'
      obtain ⟨hmid, hP₃⟩ := List.pairwise_cons.1 hP₂
      refine ⟨?_, ?_, ?_⟩
      · -- Inv
        intro b hb hbact
        rw [show (CancelResult.cancelled
              { appt with status := "cancelled", cancelledAt := some now },
            ({ σ with
              availableSlots := updateSlots appt.date
                (fun l => releaseSlot l appt.time) σ.availableSlots
              appointments := updateFirst (fun a => a.id == aid)
                (fun a => { a with status := "cancelled", cancelledAt := some now })
                σ.appointments } : DB)).2.appointments =
          updateFirst (fun a => a.id == aid)
            (fun a => { a with status := "cancelled", cancelledAt := some now })
            σ.appointments from rfl, hupd] at hb
        have hbmem : b ∈ σ.appointments := by
          rw [hdecomp]
          rcases List.mem_append.1 hb with hb | hb
          · exact List.mem_append.2 (.inl hb)
          · rcases List.mem_cons.1 hb with rfl | hb
            · rw [hfinact] at hbact; exact absurd hbact (by simp)
            · exact List.mem_append.2 (.inr (List.mem_cons_of_mem _ hb))
        show b.time ∉ slotsOf
          (updateSlots appt.date (fun l => releaseSlot l appt.time) σ.availableSlots) b.date
        rw [slotsOf_updateSlots]
        split
        · next hcond =>
          obtain ⟨hbd, -⟩ := hcond
          intro hmem
          rcases mem_releaseSlot.1 hmem with hmem | hmem
          · exact hInv b hbmem hbact hmem
          · -- b.time = appt.time: contradicts uniqueness
            rcases List.mem_append.1 hb with hbl | hbl
            · exact hcross b hbl appt (List.mem_cons_self _ _) hbact hact hbd hmem
            · rcases List.mem_cons.1 hbl with rfl | hbl
              · rw [hfinact] at hbact; exact absurd hbact (by simp)
              · exact activeRel_symm (hmid b hbl) hbact hact hbd hmem
        · exact hInv b hbmem hbact
      · -- UniqActive
        show List.Pairwise ActiveRel (updateFirst (fun a => a.id == aid)
          (fun a => { a with status := "cancelled", cancelledAt := some now })
          σ.appointments)
        rw [hupd]
        refine List.pairwise_append.2 ⟨hP₁, List.pairwise_cons.2 ⟨?_, hP₃⟩, ?_⟩
        · exact fun y _ => activeRel_of_inactive_left hfinact y
        · intro x hx y hy
          rcases List.mem_cons.1 hy with rfl | hy
          · exact activeRel_of_inactive_right hfinact x
          · exact hcross x hx y (List.mem_cons_of_mem _ hy)
      · -- SlotsNodup
        show ∀ s ∈ updateSlots appt.date (fun l => releaseSlot l appt.time)
          σ.availableSlots, s.slots.Nodup
        exact slotsNodup_updateSlots (fun l hl => nodup_releaseSlot _ hl) hNodup

/-- `bookAppointment` keeps the store well-formed. -/
theorem bookAppointment_WF (σ : DB) (pid pname : String) (d : Nat)
    (t ty : String) (ed : Option String) (now : Nat) (h : WF σ) :
    WF (bookAppointment σ pid pname d t ty ed now).2 := by
  obtain ⟨hInv, hUniq, hNodup⟩ := h
  cases hfp : σ.patients.find? (fun p => p.id == pid) with
  | none => simp only [bookAppointment, hfp]; exact ⟨hInv, hUniq, hNodup⟩
  | some patient =>
    simp only [bookAppointment, hfp]
    split
    · exact ⟨hInv, hUniq, hNodup⟩
    · next hname =>
      have hP : ∀ a : Appointment,
          (a.patientId == pid && a.date == d && isActive a) = true →
          a.date = d ∧ isActive a = true := by
        intro a ha
        simp only [Bool.and_eq_true, beq_iff_eq] at ha
        exact ⟨ha.1.2, ha.2⟩
      set σ₁ := overwriteSameDay σ d
        (fun a => a.patientId == pid && a.date == d && isActive a)
        "overwritten_by_new_booking" now with hσ₁
      have hWF₁ : WF σ₁ := by
        rw [hσ₁]; exact overwriteSameDay_WF hP ⟨hInv, hUniq, hNodup⟩
      obtain ⟨hInv₁, hUniq₁, hNodup₁⟩ := hWF₁
      cases hfs : findSlotDay σ₁.availableSlots d with
      | none => exact ⟨hInv, hUniq, hNodup⟩
      | some daySlots =>
        simp only
        split
        · exact ⟨hInv, hUniq, hNodup⟩
        · next hcont =>
          have ht : t ∈ slotsOf σ₁.availableSlots d := by
            unfold slotsOf
            rw [hfs]
            simpa using hcont
          have hrow : hasRow σ₁.availableSlots d = true := mem_slotsOf_hasRow ht
          refine ⟨?_, ?_, ?_⟩
          · -- Inv
            intro b hb hbact
            rcases List.mem_append.1 hb with hb | hb
            · show b.time ∉ slotsOf (updateSlots d
                (fun l => l.filter (fun s => s != t)) σ₁.availableSlots) b.date
              rw [slotsOf_updateSlots]
              split
              · intro hmem
                exact hInv₁ b hb hbact (List.mem_of_mem_filter hmem)
              · exact hInv₁ b hb hbact
            · -- b is the new appointment
              obtain rfl := List.mem_singleton.1 hb
              show t ∉ slotsOf (updateSlots d
                (fun l => l.filter (fun s => s != t)) σ₁.availableSlots) d
              rw [slotsOf_updateSlots, if_pos ⟨rfl, hrow⟩]
              simp
          · -- UniqActive
            refine List.pairwise_append.2 ⟨hUniq₁, List.pairwise_singleton _ _, ?_⟩
            intro x hx y hy
            obtain rfl := List.mem_singleton.1 hy
            intro hxact _ hdate
            have := hInv₁ x hx hxact
            rw [hdate] at this
            exact fun he => this (he ▸ ht)
          · -- SlotsNodup
            show ∀ s ∈ updateSlots d (fun l => l.filter (fun s => s != t))
              σ₁.availableSlots, s.slots.Nodup
            exact slotsNodup_updateSlots (fun l hl => hl.filter _) hNodup₁

/-- Membership after folding per-appointment releases over several dates:
any time present afterwards was present before or is the released time of
one of the appointments. -/
theorem mem_slotsOf_foldRelease {cs : List Appointment} {rows : List SlotDay}
    {d : Nat} {t : String}
    (h : t ∈ slotsOf (cs.foldl
      (fun rows a => updateSlots a.date (fun l => releaseSlot l a.time) rows)
      rows) d) :
    t ∈ slotsOf rows d ∨ ∃ c ∈ cs, c.date = d ∧ c.time = t := by
  induction cs generalizing rows with
  | nil => exact .inl h
  | cons c cs ih =>
    rcases ih h with h' | ⟨c', hc', hcd, hct⟩
    · rw [slotsOf_updateSlots] at h'
      split at h'
      · next hcond =>
        rcases mem_releaseSlot.1 h' with h' | rfl
        · exact .inl h'
        · exact .inr ⟨c, by simp, hcond.1.symm, rfl⟩
      · exact .inl h'
    · exact .inr ⟨c', by simp [hc'], hcd, hct⟩

theorem nodup_foldRelease {cs : List Appointment} {rows : List SlotDay}
    (h : ∀ s ∈ rows, s.slots.Nodup) :
    ∀ s ∈ cs.foldl
      (fun rows a => updateSlots a.date (fun l => releaseSlot l a.time) rows)
      rows, s.slots.Nodup := by
  induction cs generalizing rows with
  | nil => exact h
  | cons c cs ih =>
    exact ih (slotsNodup_updateSlots (fun l hl => nodup_releaseSlot _ hl) h)

/-- `cancelAllAppointments` keeps the store well-formed. -/
theorem cancelAllAppointments_WF (σ : DB) (pid : String) (now : Nat) (h : WF σ) :
    WF (cancelAllAppointments σ pid now).2 := by
  obtain ⟨hInv, hUniq, hNodup⟩ := h
  simp only [cancelAllAppointments]
  split
  · exact ⟨hInv, hUniq, hNodup⟩
  · refine ⟨?_, ?_, ?_⟩
    · -- Inv
      intro b hb hbact
      simp only [List.mem_map] at hb
      obtain ⟨a, ha, rfl⟩ := hb
      by_cases hqa : (a.patientId == pid && isActive a) = true
      · rw [if_pos hqa] at hbact
        simp [isActive] at hbact
      · rw [if_neg hqa] at hbact ⊢
        intro hmem
        rcases mem_slotsOf_foldRelease hmem with hmem | ⟨c, hc, hcd, hct⟩
        · exact hInv a ha hbact hmem
        · rw [List.mem_filter] at hc
          obtain ⟨hc, hqc⟩ := hc
          have hane : a ≠ c := by rintro rfl; exact hqa hqc
          simp only [Bool.and_eq_true, beq_iff_eq] at hqc
          exact uniqActive_forall hUniq ha hc hane hbact hqc.2 hcd.symm hct.symm
    · -- UniqActive
      refine List.Pairwise.map _ ?_ hUniq
      intro a b hab h1 h2 h3
      by_cases hqa : (a.patientId == pid && isActive a) = true
      · rw [if_pos hqa] at h1; simp [isActive] at h1
      · by_cases hqb : (b.patientId == pid && isActive b) = true
        · rw [if_pos hqb] at h2; simp [isActive] at h2
        · rw [if_neg hqa] at h1 h3 ⊢
          rw [if_neg hqb] at h2 h3 ⊢
          exact hab h1 h2 h3
    · -- SlotsNodup
      exact nodup_foldRelease hNodup

/-- `rescheduleAppointment` keeps the store well-formed provided the targeted
appointment is not already cancelled.  (Without that proviso the operation can
break the invariant: see the counterexample for the reschedule claim.) -/
theorem rescheduleAppointment_WF (σ : DB) (aid : String) (nd : Nat) (nt : String)
    (now : Nat) (h : WF σ)
    (hactive : ∀ a, σ.appointments.find? (fun a => a.id == aid) = some a →
      isActive a = true) :
    WF (rescheduleAppointment σ aid nd nt now).2 := by
  obtain ⟨hInv, hUniq, hNodup⟩ := h
  cases hfp : σ.appointments.find? (fun a => a.id == aid) with
  | none => simp only [rescheduleAppointment, hfp]; exact ⟨hInv, hUniq, hNodup⟩
  | some appt =>
    simp only [rescheduleAppointment, hfp]
    cases hfs : findSlotDay σ.availableSlots nd with
    | none => exact ⟨hInv, hUniq, hNodup⟩
    | some newDaySlots =>
      simp only
      split
      · exact ⟨hInv, hUniq, hNodup⟩
      · next hcont =>
        have hact : isActive appt = true := hactive appt hfp
        have htn : nt ∈ slotsOf σ.availableSlots nd := by
          unfold slotsOf; rw [hfs]; simpa using hcont
        obtain ⟨l₁, l₂, hdecomp, hl₁, hpx, hupd⟩ :=
          updateFirst_eq_of_find?
            (fun a =>
              { a with
                date := nd, time := nt,
                rescheduledFrom := some (a.date, a.time),
                rescheduledAt := some now }) hfp
        have hUniq' : List.Pairwise ActiveRel (l₁ ++ appt :: l₂) := by
          rw [← hdecomp]; exact hUniq
        obtain ⟨hP₁, hP₂, hcross⟩ := List.pairwise_append.1 hUniq'
        obtain ⟨hmid, hP₃⟩ := List.pairwise_cons.1 hP₂
        -- membership in the final slot store implies membership before both
        -- updates, or equality with the released old slot
        have hmem2 : ∀ {δ : Nat} {x : String},
            x ∈ slotsOf (updateSlots nd (fun l => l.filter (fun s => s != nt))
              (updateSlots appt.date (fun l => releaseSlot l appt.time)
                σ.availableSlots)) δ →
            x ∈ slotsOf σ.availableSlots δ ∨ (δ = appt.date ∧ x = appt.time) := by
          intro δ x hx
          rw [slotsOf_updateSlots] at hx
          have hx' : x ∈ slotsOf (updateSlots appt.date
              (fun l => releaseSlot l appt.time) σ.availableSlots) δ := by
            split at hx
            · exact List.mem_of_mem_filter hx
            · exact hx
          rw [slotsOf_updateSlots] at hx'
          split at hx'
          · next hcond =>
            rcases mem_releaseSlot.1 hx' with hx' | rfl
            · exact .inl hx'
            · exact .inr ⟨hcond.1, rfl⟩
          · exact .inl hx'
        refine ⟨?_, ?_, ?_⟩
        · -- Inv
          intro b hb hbact
          have hb' : b ∈ l₁ ++
              ({ appt with
                 date := nd, time := nt,
                 rescheduledFrom := some (appt.date, appt.time),
                 rescheduledAt := some now } : Appointment) :: l₂ := by
            rw [← hupd]; exact hb
          show b.time ∉ slotsOf (updateSlots nd (fun l => l.filter (fun s => s != nt))
            (updateSlots appt.date (fun l => releaseSlot l appt.time)
              σ.availableSlots)) b.date
          rcases List.mem_append.1 hb' with hbl | hbl
          case _ =>
            -- b is unchanged and was active before
            have hbσ : b ∈ σ.appointments := by
              rw [hdecomp]; exact List.mem_append.2 (.inl hbl)
            intro hmem
            rcases hmem2 hmem with hmem | ⟨hbd, hbt⟩
            · exact hInv b hbσ hbact hmem
            · exact hcross b hbl appt (List.mem_cons_self _ _)
                hbact hact hbd hbt
          case _ =>
            rcases List.mem_cons.1 hbl with rfl | hbl
            · -- b is the rescheduled appointment: its new slot was removed last
              show nt ∉ slotsOf (updateSlots nd (fun l => l.filter (fun s => s != nt))
                (updateSlots appt.date (fun l => releaseSlot l appt.time)
                  σ.availableSlots)) nd
              rw [slotsOf_updateSlots, if_pos ⟨rfl, by
                rw [hasRow_updateSlots]; exact mem_slotsOf_hasRow htn⟩]
              simp
            · have hbσ : b ∈ σ.appointments := by
                rw [hdecomp]
                exact List.mem_append.2 (.inr (List.mem_cons_of_mem _ hbl))
              intro hmem
              rcases hmem2 hmem with hmem | ⟨hbd, hbt⟩
              · exact hInv b hbσ hbact hmem
              · exact activeRel_symm (hmid b hbl) hbact hact hbd hbt
        · -- UniqActive
          show List.Pairwise ActiveRel (updateFirst (fun a => a.id == aid)
            (fun a =>
              { a with
                date := nd, time := nt,
                rescheduledFrom := some (a.date, a.time),
                rescheduledAt := some now }) σ.appointments)
          rw [hupd]
          have hrel : ∀ y ∈ σ.appointments, ActiveRel
              ({ appt with
                 date := nd, time := nt,
                 rescheduledFrom := some (appt.date, appt.time),
                 rescheduledAt := some now } : Appointment) y := by
            intro y hy _ hyact hdate
            have := hInv y hy hyact
            rw [show ({ appt with
                        date := nd, time := nt,
                        rescheduledFrom := some (appt.date, appt.time),
                        rescheduledAt := some now } : Appointment).date = nd
              from rfl] at hdate
            rw [← hdate] at this
            exact fun he => this (he.symm ▸ htn)
          refine List.pairwise_append.2 ⟨hP₁, List.pairwise_cons.2 ⟨?_, hP₃⟩, ?_⟩
          · intro y hy
            exact hrel y (by rw [hdecomp]
                             exact List.mem_append.2
                               (.inr (List.mem_cons_of_mem _ hy)))
          · intro x hx y hy
            rcases List.mem_cons.1 hy with rfl | hy
            · refine activeRel_symm (hrel x ?_)
              rw [hdecomp]; exact List.mem_append.2 (.inl hx)
            · exact hcross x hx y (List.mem_cons_of_mem _ hy)
        · -- SlotsNodup
          show ∀ s ∈ updateSlots nd (fun l => l.filter (fun s => s != nt))
            (updateSlots appt.date (fun l => releaseSlot l appt.time)
              σ.availableSlots), s.slots.Nodup
          exact slotsNodup_updateSlots (fun l hl => hl.filter _)
            (slotsNodup_updateSlots (fun l hl => nodup_releaseSlot _ hl) hNodup)

/-- Characterisation of the family allocation loop when the upfront capacity
check guarantees the mid-loop `break` never fires: one appointment per member
in listed order, consuming consecutive slot indices starting at `idx`. -/
theorem famLoop_spec (now : Nat) (ph dob ins : String) (d : Nat)
    (L : List String) :
    ∀ (fam : List FamArg) (idx : Nat) (pats : List Patient)
      (booked : List Appointment) (refs : List FamilyRef),
      idx + fam.length ≤ L.length →
      ((famLoop now ph dob ins d L fam idx pats booked refs).2.1.map
          (fun a => a.time) =
        booked.map (fun a => a.time) ++ (L.drop idx).take fam.length) ∧
      ((famLoop now ph dob ins d L fam idx pats booked refs).2.1.map
          (fun a => a.patientName) =
        booked.map (fun a => a.patientName) ++ fam.map (fun m => m.name)) ∧
      ((famLoop now ph dob ins d L fam idx pats booked refs).2.1.length =
        booked.length + fam.length) ∧
      (∀ a ∈ (famLoop now ph dob ins d L fam idx pats booked refs).2.1,
        a ∈ booked ∨ (a.date = d ∧ a.status = "confirmed")) ∧
      (∃ rest, (famLoop now ph dob ins d L fam idx pats booked refs).2.1 =
        booked ++ rest) := by
  intro fam
  induction fam with
  | nil =>
    intro idx pats booked refs _
    refine ⟨by simp [famLoop], by simp [famLoop], by simp [famLoop], ?_, ?_⟩
    · intro a ha
      exact .inl (by simpa [famLoop] using ha)
    · exact ⟨[], by simp [famLoop]⟩
  | cons m rest ih =>
    intro idx pats booked refs hlen
    have hidx : idx < L.length := by
      simp only [List.length_cons] at hlen; omega
    have hstep : ¬ L.length ≤ idx := by omega
    simp only [famLoop, if_neg hstep]
    have hlen' : idx + 1 + rest.length ≤ L.length := by
      simp only [List.length_cons] at hlen; omega
    have hdrop : (L.drop idx).take (rest.length + 1) =
        L.getD idx "" :: (L.drop (idx + 1)).take rest.length := by
      rw [List.drop_eq_getElem_cons hidx, List.take_succ_cons,
        List.getD_eq_getElem L "" hidx]
    refine ⟨?_, ?_, ?_, ?_, ?_⟩
    · rw [(ih (idx + 1) _ _ _ hlen').1]
      simp only [List.map_append, List.map_cons, List.map_nil, List.length_cons]
      rw [hdrop]
      simp
    · rw [(ih (idx + 1) _ _ _ hlen').2.1]
      simp
    · rw [(ih (idx + 1) _ _ _ hlen').2.2.1]
      simp only [List.length_append, List.length_cons, List.length_nil]
      omega
    · intro a ha
      rcases (ih (idx + 1) _ _ _ hlen').2.2.2.1 a ha with hmem | hds
      · rcases List.mem_append.1 hmem with hmem | hmem
        · exact .inl hmem
        · obtain rfl := List.mem_singleton.1 hmem
          exact .inr ⟨rfl, rfl⟩
      · exact .inr hds
    · apply Exists.intro
      rw [(ih (idx + 1) _ _ _ hlen').2.2.2.2.choose_spec, List.append_assoc]

/-- The family pre-emption step keeps the store well-formed. -/
theorem famPreempt_WF (σ : DB) (primary : Patient) (fam : List FamArg)
    (d : Nat) (now : Nat) (h : WF σ) : WF (famPreempt σ primary fam d now) := by
  unfold famPreempt
  refine overwriteSameDay_WF ?_ h
  intro a ha
  simp only [Bool.and_eq_true, beq_iff_eq] at ha
  exact ⟨ha.1.1, ha.1.2⟩

/-- `bookFamilyAppointments` keeps the store well-formed. -/
theorem bookFamilyAppointments_WF (σ : DB) (pid : String) (fam : List FamArg)
    (d : Nat) (pty : String) (now : Nat) (h : WF σ) :
    WF (bookFamilyAppointments σ pid fam d pty now).2 := by
  cases hfp : σ.patients.find? (fun p => p.id == pid) with
  | none => simp only [bookFamilyAppointments, hfp]; exact h
  | some primary =>
    simp only [bookFamilyAppointments, hfp]
    split
    · exact h
    · next hne =>
      split
      · exact h
      · next hvalid =>
        have hWF₁ : WF (famPreempt σ primary fam d now) :=
          famPreempt_WF σ primary fam d now h
        set σ₁ := famPreempt σ primary fam d now with hσ₁
        obtain ⟨hInv₁, hUniq₁, hNodup₁⟩ := hWF₁
        split
        · -- insufficient capacity: both sub-branches return σ unchanged
          cases σ₁.availableSlots.find? (fun s =>
            decide (d < s.date) && decide (fam.length + 1 ≤ s.slots.length)) with
          | none => exact h
          | some nextAvailable => exact h
        · next hcap =>
          -- the preferred day's row exists, with at least `needed` open slots
          cases hfs : findSlotDay σ₁.availableSlots d with
          | none =>
            rw [hfs] at hcap
            simp at hcap
          | some row =>
            rw [hfs] at hcap
            simp only [Option.map_some', Option.getD_some] at hcap ⊢
            rw [not_lt] at hcap
            have hrow : hasRow σ₁.availableSlots d = true := by
              unfold hasRow; rw [hfs]; rfl
            have hSlotsOf : slotsOf σ₁.availableSlots d = row.slots := by
              unfold slotsOf; rw [hfs]
            have hNodupL : row.slots.Nodup := by
              rw [← hSlotsOf]; exact slotsOf_nodup d hNodup₁
            have hfamlen : 0 < fam.length := by
              cases fam with
              | nil => simp at hne
              | cons a l => simp
            have hlen1 : 1 + fam.length ≤ row.slots.length := by omega
            obtain ⟨hT, hN, hL, hM, hRest⟩ := famLoop_spec now primary.phone
              primary.dateOfBirth primary.insurance d row.slots fam 1
              σ₁.patients
              [famPrimaryAppointment pid primary d row.slots pty now]
              primary.familyMembers hlen1
            set B := (famLoop now primary.phone primary.dateOfBirth
              primary.insurance d row.slots fam 1 σ₁.patients
              [famPrimaryAppointment pid primary d row.slots pty now]
              primary.familyMembers).2.1 with hB
            have hBlen : B.length = fam.length + 1 := by rw [hL]; simp; omega
            have hTimes : B.map (fun a => a.time) =
                row.slots.take (fam.length + 1) := by
              rw [hT]
              have h0 : 0 < row.slots.length := by omega
              have hcons : row.slots = row.slots[0] :: row.slots.drop 1 := by
                conv_lhs => rw [← List.drop_zero row.slots]
                rw [List.drop_eq_getElem_cons h0]
              rw [show ([famPrimaryAppointment pid primary d row.slots pty now].map
                  (fun a => a.time)) = [row.slots.getD 0 ""] from by
                simp [famPrimaryAppointment]]
              rw [List.getD_eq_getElem row.slots "" h0]
              conv_rhs => rw [hcons]
              rw [List.take_succ_cons]
              simp
            have hAll : ∀ a ∈ B, a.date = d ∧ a.status = "confirmed" := by
              intro a ha
              rcases hM a ha with hmem | hds
              · obtain rfl := List.mem_singleton.1 hmem
                exact ⟨rfl, rfl⟩
              · exact hds
            have hActiveB : ∀ a ∈ B, isActive a = true := by
              intro a ha
              rw [isActive, (hAll a ha).2]
              rfl
            have hTimeMem : ∀ a ∈ B, a.time ∈ row.slots.take (fam.length + 1) := by
              intro a ha
              rw [← hTimes]
              exact List.mem_map_of_mem _ ha
            refine ⟨?_, ?_, ?_⟩
            · -- Inv
              intro b hb hbact
              rcases List.mem_append.1 hb with hb | hb
              · show b.time ∉ slotsOf (updateSlots d (fun l => l.drop B.length)
                  σ₁.availableSlots) b.date
                rw [slotsOf_updateSlots]
                split
                · next hcond =>
                  intro hmem
                  exact hInv₁ b hb hbact (List.mem_of_mem_drop hmem)
                · exact hInv₁ b hb hbact
              · obtain ⟨hbd, -⟩ := hAll b hb
                show b.time ∉ slotsOf (updateSlots d (fun l => l.drop B.length)
                  σ₁.availableSlots) b.date
                rw [hbd, slotsOf_updateSlots, if_pos ⟨rfl, hrow⟩, hSlotsOf, hBlen]
                intro hmem
                exact (List.disjoint_take_drop hNodupL le_rfl)
                  (hTimeMem b hb) hmem
            · -- UniqActive
              refine List.pairwise_append.2 ⟨hUniq₁, ?_, ?_⟩
              · have hnd : (B.map (fun a => a.time)).Nodup := by
                  rw [hTimes]
                  exact hNodupL.sublist (List.take_sublist _ _)
                have := (List.pairwise_map).1 hnd
                exact this.imp (fun hne _ _ _ => hne)
              · intro x hx y hy hxact hyact hdate
                obtain ⟨hyd, -⟩ := hAll y hy
                have hxmem := hInv₁ x hx hxact
                rw [hdate, hyd, hSlotsOf] at hxmem
                intro he
                exact hxmem (he ▸ List.take_subset _ _ (hTimeMem y hy))
            · -- SlotsNodup
              show ∀ s ∈ updateSlots d (fun l => l.drop B.length)
                σ₁.availableSlots, s.slots.Nodup
              exact slotsNodup_updateSlots
                (fun l hl => hl.sublist (List.drop_sublist _ _)) hNodup₁

/-! ### Each operation either succeeds or leaves the persisted stores
untouched (the `writeDatabase` call is only reached on the success path). -/

theorem bookAppointment_state_or_success (σ : DB) (pid pname : String)
    (d : Nat) (t ty : String) (ed : Option String) (now : Nat) :
    (bookAppointment σ pid pname d t ty ed now).2 = σ ∨
    (bookAppointment σ pid pname d t ty ed now).1.success = true := by
  simp only [bookAppointment]
  cases hfp : σ.patients.find? (fun p => p.id == pid) with
  | none => exact .inl rfl
  | some patient =>
    simp only
    split
    · exact .inl rfl
    · cases hfs : findSlotDay (overwriteSameDay σ d
        (fun a => a.patientId == pid && a.date == d && isActive a)
        "overwritten_by_new_booking" now).availableSlots d with
      | none => exact .inl rfl
      | some ds =>
        simp only
        split
        · exact .inl rfl
        · exact .inr rfl

theorem cancelAppointment_state_or_success (σ : DB) (aid : String) (now : Nat) :
    (cancelAppointment σ aid now).2 = σ ∨
    (cancelAppointment σ aid now).1.success = true := by
  simp only [cancelAppointment]
  cases hfp : σ.appointments.find? (fun a => a.id == aid) with
  | none => exact .inl rfl
  | some appt =>
    simp only
    split
    · exact .inl rfl
    · exact .inr rfl

theorem cancelAllAppointments_state_or_success (σ : DB) (pid : String)
    (now : Nat) :
    (cancelAllAppointments σ pid now).2 = σ ∨
    (cancelAllAppointments σ pid now).1.success = true := by
  simp only [cancelAllAppointments]
  split
  · exact .inl rfl
  · exact .inr rfl

theorem rescheduleAppointment_state_or_success (σ : DB) (aid : String)
    (nd : Nat) (nt : String) (now : Nat) :
    (rescheduleAppointment σ aid nd nt now).2 = σ ∨
    (rescheduleAppointment σ aid nd nt now).1.success = true := by
  simp only [rescheduleAppointment]
  cases hfp : σ.appointments.find? (fun a => a.id == aid) with
  | none => exact .inl rfl
  | some appt =>
    simp only
    cases hfs : findSlotDay σ.availableSlots nd with
    | none => exact .inl rfl
    | some ds =>
      simp only
      split
      · exact .inl rfl
      · exact .inr rfl

theorem bookFamilyAppointments_state_or_success (σ : DB) (pid : String)
    (fam : List FamArg) (d : Nat) (pty : String) (now : Nat) :
    (bookFamilyAppointments σ pid fam d pty now).2 = σ ∨
    (bookFamilyAppointments σ pid fam d pty now).1.success = true := by
  simp only [bookFamilyAppointments]
  cases hfp : σ.patients.find? (fun p => p.id == pid) with
  | none => exact .inl rfl
  | some primary =>
    simp only
    split
    · exact .inl rfl
    · split
      · exact .inl rfl
      · split
        · cases (famPreempt σ primary fam d now).availableSlots.find? (fun s =>
            decide (d < s.date) && decide (fam.length + 1 ≤ s.slots.length)) with
          | none => exact .inl rfl
          | some next => exact .inl rfl
        · exact .inr rfl

theorem registerNewPatient_state_or_success (σ : DB)
    (n p dob ins : String) (cy now : Nat) :
    (registerNewPatient σ n p dob ins cy now).2 = σ ∨
    (registerNewPatient σ n p dob ins cy now).1.success = true := by
  simp only [registerNewPatient]
  split
  · exact .inl rfl
  · split
    · exact .inl rfl
    · split
      · exact .inl rfl
      · split
        · exact .inl rfl
        · split
          · exact .inl rfl
          · exact .inr rfl

theorem notifyStaffEmergency_state_or_success (σ : DB)
    (n det p : String) (now : Nat) :
    (notifyStaffEmergency σ n det p now).2 = σ ∨
    (notifyStaffEmergency σ n det p now).1.success = true := by
  simp only [notifyStaffEmergency]
  split
  · exact .inl rfl
  · split
    · exact .inl rfl
    · split
      · exact .inl rfl
      · split
        · exact .inl rfl
        · exact .inr rfl

/-! ### Claim C1 -/

/-- Claim C1: for every operation of the booking core (book, cancel,
cancelAll, reschedule, family booking, registration, emergency notify) and
every starting store state, if the operation returns a failure result then
the persisted stores are unchanged — slot release/reserve and the paired
ledger write commit together or not at all; in particular the same-day
soft-cancellations performed in memory before a failed availability or
capacity check are never committed. -/
theorem claim_C1_failed_operations_leave_stores_unchanged :
    (∀ (σ : DB) (pid pname : String) (d : Nat) (t ty : String)
        (ed : Option String) (now : Nat),
      (bookAppointment σ pid pname d t ty ed now).1.success = false →
      (bookAppointment σ pid pname d t ty ed now).2 = σ) ∧
    (∀ (σ : DB) (aid : String) (now : Nat),
      (cancelAppointment σ aid now).1.success = false →
      (cancelAppointment σ aid now).2 = σ) ∧
    (∀ (σ : DB) (pid : String) (now : Nat),
      (cancelAllAppointments σ pid now).1.success = false →
      (cancelAllAppointments σ pid now).2 = σ) ∧
    (∀ (σ : DB) (aid : String) (nd : Nat) (nt : String) (now : Nat),
      (rescheduleAppointment σ aid nd nt now).1.success = false →
      (rescheduleAppointment σ aid nd nt now).2 = σ) ∧
    (∀ (σ : DB) (pid : String) (fam : List FamArg) (d : Nat) (pty : String)
        (now : Nat),
      (bookFamilyAppointments σ pid fam d pty now).1.success = false →
      (bookFamilyAppointments σ pid fam d pty now).2 = σ) ∧
    (∀ (σ : DB) (n p dob ins : String) (cy now : Nat),
      (registerNewPatient σ n p dob ins cy now).1.success = false →
      (registerNewPatient σ n p dob ins cy now).2 = σ) ∧
    (∀ (σ : DB) (n det p : String) (now : Nat),
      (notifyStaffEmergency σ n det p now).1.success = false →
      (notifyStaffEmergency σ n det p now).2 = σ) := by
  refine ⟨fun σ pid pname d t ty ed now h => ?_, fun σ aid now h => ?_,
    fun σ pid now h => ?_, fun σ aid nd nt now h => ?_,
    fun σ pid fam d pty now h => ?_, fun σ n p dob ins cy now h => ?_,
    fun σ n det p now h => ?_⟩
  · rcases bookAppointment_state_or_success σ pid pname d t ty ed now with h' | h'
    · exact h'
    · rw [h] at h'; exact absurd h' (by simp)
  · rcases cancelAppointment_state_or_success σ aid now with h' | h'
    · exact h'
    · rw [h] at h'; exact absurd h' (by simp)
  · rcases cancelAllAppointments_state_or_success σ pid now with h' | h'
    · exact h'
    · rw [h] at h'; exact absurd h' (by simp)
  · rcases rescheduleAppointment_state_or_success σ aid nd nt now with h' | h'
    · exact h'
    · rw [h] at h'; exact absurd h' (by simp)
  · rcases bookFamilyAppointments_state_or_success σ pid fam d pty now with h' | h'
    · exact h'
    · rw [h] at h'; exact absurd h' (by simp)
  · rcases registerNewPatient_state_or_success σ n p dob ins cy now with h' | h'
    · exact h'
    · rw [h] at h'; exact absurd h' (by simp)
  · rcases notifyStaffEmergency_state_or_success σ n det p now with h' | h'
    · exact h'
    · rw [h] at h'; exact absurd h' (by simp)

/-- Witness for C1: on the empty store every operation fails (patient or
appointment missing, validation failing), and the store is returned
unchanged each time. -/
theorem claim_C1_witness :
    (bookAppointment ⟨[], [], [], []⟩ "p001" "John Doe" 20251025 "9:00 AM"
      "Cleaning" none 0).2 = ⟨[], [], [], []⟩ ∧
    (cancelAppointment ⟨[], [], [], []⟩ "a001" 0).2 = ⟨[], [], [], []⟩ ∧
    (cancelAllAppointments ⟨[], [], [], []⟩ "p001" 0).2 = ⟨[], [], [], []⟩ ∧
    (rescheduleAppointment ⟨[], [], [], []⟩ "a001" 20251026 "1:00 PM" 0).2 =
      ⟨[], [], [], []⟩ ∧
    (bookFamilyAppointments ⟨[], [], [], []⟩ "p001"
      [⟨"Jane Doe", "spouse", "Cleaning"⟩] 20251025 "Cleaning" 0).2 =
      ⟨[], [], [], []⟩ ∧
    (registerNewPatient ⟨[], [], [], []⟩ "J" "5551234567" "01151990"
      "Blue Cross" 2025 0).2 = ⟨[], [], [], []⟩ ∧
    (notifyStaffEmergency ⟨[], [], [], []⟩ "John Doe" "hi" "5551234567" 0).2 =
      ⟨[], [], [], []⟩ :=
  ⟨claim_C1_failed_operations_leave_stores_unchanged.1 _ _ _ _ _ _ _ _ (by decide),
   claim_C1_failed_operations_leave_stores_unchanged.2.1 _ _ _ (by decide),
   claim_C1_failed_operations_leave_stores_unchanged.2.2.1 _ _ _ (by decide),
   claim_C1_failed_operations_leave_stores_unchanged.2.2.2.1 _ _ _ _ _ (by decide),
   claim_C1_failed_operations_leave_stores_unchanged.2.2.2.2.1 _ _ _ _ _ _ (by decide),
   claim_C1_failed_operations_leave_stores_unchanged.2.2.2.2.2.1 _ _ _ _ _ _ _ (by decide),
   claim_C1_failed_operations_leave_stores_unchanged.2.2.2.2.2.2 _ _ _ _ _ (by decide)⟩

/-! ### Claim C2 -/

/-- A cancelled appointment at (date 1, "9:00 AM"). -/
def cexCancelledAppt : Appointment :=
  { id := "a001", patientId := "p001", patientName := "John Doe",
    relationship := none, date := 1, time := "9:00 AM", type := "Cleaning",
    status := "cancelled", emergencyDetails := none, createdAt := none,
    bookedAt := none, cancelledAt := some 1, cancelReason := none,
    rescheduledFrom := none, rescheduledAt := none }

/-- An active appointment of a different patient holding the same
(date 1, "9:00 AM") slot. -/
def cexActiveAppt : Appointment :=
  { id := "a002", patientId := "p002", patientName := "Mary Major",
    relationship := none, date := 1, time := "9:00 AM", type := "Cleaning",
    status := "scheduled", emergencyDetails := none, createdAt := none,
    bookedAt := none, cancelledAt := none, cancelReason := none,
    rescheduledFrom := none, rescheduledAt := none }

/-- A well-formed store in which rescheduling the *cancelled* appointment
`a001` breaks the consistency invariant. -/
def cexStore : DB :=
  { patients := [], appointments := [cexCancelledAppt, cexActiveAppt],
    availableSlots := [⟨1, []⟩, ⟨2, ["1:00 PM"]⟩], emergencyAlerts := [] }

/-- Counterexample to C2 as stated: from a well-formed store satisfying the
cross-entity invariant, `reschedule` of the already-cancelled appointment
`a001` to the open slot (2, "1:00 PM") succeeds and re-releases the old
label "9:00 AM" on date 1 even though the active appointment `a002` still
holds (1, "9:00 AM") — the invariant does not survive. -/
theorem claim_C2_counterexample :
    WF cexStore ∧
    (rescheduleAppointment cexStore "a001" 2 "1:00 PM" 99).1.success = true ∧
    ¬ Inv (rescheduleAppointment cexStore "a001" 2 "1:00 PM" 99).2 := by
  refine ⟨⟨by decide, by decide, by decide⟩, by decide, ?_⟩
  intro hInv
  exact absurd (by decide : cexActiveAppt ∈
      (rescheduleAppointment cexStore "a001" 2 "1:00 PM" 99).2.appointments ∧
      isActive cexActiveAppt = true ∧
      cexActiveAppt.time ∈ slotsOf
        (rescheduleAppointment cexStore "a001" 2 "1:00 PM" 99).2.availableSlots
        cexActiveAppt.date)
    (fun ⟨hm, ha, ht⟩ => hInv cexActiveAppt hm ha ht)

/-- Claim C2 (amended): book, cancel, cancelAll and family booking preserve
the consistency invariant — for every date and time label, a non-cancelled
appointment holding (date, time) implies the label is absent from that day's
available list — provided the store is well-formed (duplicate-free slot
lists, at most one active appointment per (date, time)), and well-formedness
itself is preserved; reschedule preserves it only under the additional
premise that the targeted appointment is not already cancelled. -/
theorem claim_C2_amended_operations_preserve_invariant :
    (∀ (σ : DB) (pid pname : String) (d : Nat) (t ty : String)
        (ed : Option String) (now : Nat), WF σ →
      WF (bookAppointment σ pid pname d t ty ed now).2) ∧
    (∀ (σ : DB) (aid : String) (now : Nat), WF σ →
      WF (cancelAppointment σ aid now).2) ∧
    (∀ (σ : DB) (pid : String) (now : Nat), WF σ →
      WF (cancelAllAppointments σ pid now).2) ∧
    (∀ (σ : DB) (aid : String) (nd : Nat) (nt : String) (now : Nat), WF σ →
      (∀ a, σ.appointments.find? (fun a => a.id == aid) = some a →
        isActive a = true) →
      WF (rescheduleAppointment σ aid nd nt now).2) ∧
    (∀ (σ : DB) (pid : String) (fam : List FamArg) (d : Nat) (pty : String)
        (now : Nat), WF σ →
      WF (bookFamilyAppointments σ pid fam d pty now).2) :=
  ⟨fun σ pid pname d t ty ed now h => bookAppointment_WF σ pid pname d t ty ed now h,
   fun σ aid now h => cancelAppointment_WF σ aid now h,
   fun σ pid now h => cancelAllAppointments_WF σ pid now h,
   fun σ aid nd nt now h ha => rescheduleAppointment_WF σ aid nd nt now h ha,
   fun σ pid fam d pty now h => bookFamilyAppointments_WF σ pid fam d pty now h⟩

/-- A patient record used by the amended-C2 witness store.  The store has
one active appointment at (20251025, "9:00 AM") and open slots on two days. -/
def wfPatient : Patient :=
  { id := "p001", fullName := "John Doe", phone := "5551234567",
    dateOfBirth := "01151990", insurance := "Blue Cross",
    registeredDate := 0, familyMembers := [] }

/-- The single active appointment of `wfStore`. -/
def wfAppt : Appointment :=
  { id := "a001", patientId := "p001", patientName := "John Doe",
    relationship := none, date := 20251025, time := "9:00 AM",
    type := "Cleaning", status := "scheduled", emergencyDetails := none,
    createdAt := some 1, bookedAt := none, cancelledAt := none,
    cancelReason := none, rescheduledFrom := none, rescheduledAt := none }

def wfStore : DB :=
  { patients := [wfPatient]
    appointments := [wfAppt]
    availableSlots := [⟨20251025, ["10:00 AM", "2:00 PM"]⟩,
      ⟨20251026, ["1:00 PM"]⟩]
    emergencyAlerts := [] }

/-- Witness for the amended C2 on `wfStore`, discharging the well-formedness
premises at a concrete input for all five operations. -/
theorem claim_C2_amended_witness :
    WF (bookAppointment wfStore "p001" "John Doe" 20251025 "2:00 PM"
      "Filling" none 5).2 ∧
    WF (cancelAppointment wfStore "a001" 7).2 ∧
    WF (cancelAllAppointments wfStore "p001" 7).2 ∧
    WF (rescheduleAppointment wfStore "a001" 20251026 "1:00 PM" 9).2 ∧
    WF (bookFamilyAppointments wfStore "p001"
      [⟨"Jane Doe", "spouse", "Cleaning"⟩] 20251025 "Checkup" 99).2 := by
  have hwf : WF wfStore := ⟨by decide, by decide, by decide⟩
  exact ⟨claim_C2_amended_operations_preserve_invariant.1 wfStore
      "p001" "John Doe" 20251025 "2:00 PM" "Filling" none 5 hwf,
    claim_C2_amended_operations_preserve_invariant.2.1 wfStore "a001" 7 hwf,
    claim_C2_amended_operations_preserve_invariant.2.2.1 wfStore "p001" 7 hwf,
    claim_C2_amended_operations_preserve_invariant.2.2.2.1 wfStore "a001"
      20251026 "1:00 PM" 9 hwf (by decide),
    claim_C2_amended_operations_preserve_invariant.2.2.2.2 wfStore "p001"
      [⟨"Jane Doe", "spouse", "Cleaning"⟩] 20251025 "Checkup" 99 hwf⟩

/-! ### Claim C3 -/

/-- Claim C3: when book succeeds for a patient on a date, every pre-existing
non-cancelled appointment of that patient on that date is soft-cancelled
with cancel reason "overwritten_by_new_booking" and its time label returned
to the day's available list (still present afterwards unless it is the very
time being rebooked), so that afterwards the patient has exactly one
non-cancelled appointment on that date — the newly created one, with status
"scheduled". -/
theorem claim_C3_booking_overwrites_same_day (σ : DB) (pid pname : String)
    (d : Nat) (t ty : String) (ed : Option String) (now : Nat)
    (appt : Appointment) (σ' : DB)
    (heq : bookAppointment σ pid pname d t ty ed now = (.booked appt, σ')) :
    (∀ a ∈ σ.appointments, a.patientId = pid → a.date = d →
      isActive a = true →
      mkCancelled a "overwritten_by_new_booking" now ∈ σ'.appointments ∧
      (a.time = t ∨ a.time ∈ slotsOf σ'.availableSlots d)) ∧
    σ'.appointments.filter
      (fun b => b.patientId == pid && b.date == d && isActive b) = [appt] ∧
    appt.status = "scheduled" := by
  cases hfp : σ.patients.find? (fun p => p.id == pid) with
  | none => simp [bookAppointment, hfp] at heq
  | some patient =>
    simp only [bookAppointment, hfp] at heq
    split at heq
    · simp at heq
    · set σ₁ := overwriteSameDay σ d
        (fun a => a.patientId == pid && a.date == d && isActive a)
        "overwritten_by_new_booking" now with hσ₁
      cases hfs : findSlotDay σ₁.availableSlots d with
      | none => rw [hfs] at heq; simp at heq
      | some ds =>
        rw [hfs] at heq
        simp only at heq
        split at heq
        · simp at heq
        · next hcont =>
          rw [Prod.mk.injEq, BookResult.booked.injEq] at heq
          obtain ⟨rfl, rfl⟩ := heq
          have hrow₁ : hasRow σ₁.availableSlots d = true := by
            unfold hasRow; rw [hfs]; rfl
          have hrowσ : hasRow σ.availableSlots d = true := by
            rw [hσ₁] at hrow₁
            rwa [show (overwriteSameDay σ d
              (fun a => a.patientId == pid && a.date == d && isActive a)
              "overwritten_by_new_booking" now).availableSlots =
              updateSlots d (releaseAll (σ.appointments.filter
                (fun a => a.patientId == pid && a.date == d && isActive a)))
              σ.availableSlots from rfl, hasRow_updateSlots] at hrow₁
          refine ⟨?_, ?_, rfl⟩
          · intro a ha hapid had haact
            have hpa : (a.patientId == pid && a.date == d && isActive a) = true := by
              simp [hapid, had, haact]
            constructor
            · show mkCancelled a "overwritten_by_new_booking" now ∈
                σ₁.appointments ++ [_]
              refine List.mem_append.2 (.inl ?_)
              rw [hσ₁]
              show mkCancelled a "overwritten_by_new_booking" now ∈
                σ.appointments.map (cancelIf
                  (fun a => a.patientId == pid && a.date == d && isActive a)
                  "overwritten_by_new_booking" now)
              refine List.mem_map.2 ⟨a, ha, ?_⟩
              rw [cancelIf, if_pos hpa]
            · by_cases hat : a.time = t
              · exact .inl hat
              · refine .inr ?_
                show a.time ∈ slotsOf (updateSlots d
                  (fun l => l.filter (fun s => s != t)) σ₁.availableSlots) d
                rw [slotsOf_updateSlots, if_pos ⟨rfl, hrow₁⟩, List.mem_filter]
                refine ⟨?_, by simpa using hat⟩
                rw [hσ₁]
                show a.time ∈ slotsOf (updateSlots d (releaseAll
                  (σ.appointments.filter
                    (fun a => a.patientId == pid && a.date == d && isActive a)))
                  σ.availableSlots) d
                rw [slotsOf_updateSlots, if_pos ⟨rfl, hrowσ⟩]
                exact mem_releaseAll.2 (.inr ⟨a, List.mem_filter.2 ⟨ha, hpa⟩, rfl⟩)
          · rw [show (({ σ₁ with
                appointments := σ₁.appointments ++ [_],
                availableSlots := updateSlots d
                  (fun l => l.filter (fun s => s != t)) σ₁.availableSlots } : DB)).appointments =
              σ₁.appointments ++ [_] from rfl, List.filter_append]
            rw [List.filter_eq_nil_iff.2, List.nil_append]
            · simp [isActive, newBookedAppointment]
            · intro b hb
              rw [hσ₁] at hb
              have hb' : b ∈ σ.appointments.map (cancelIf
                  (fun a => a.patientId == pid && a.date == d && isActive a)
                  "overwritten_by_new_booking" now) := hb
              rw [List.mem_map] at hb'
              obtain ⟨a, ha, rfl⟩ := hb'
              intro hcontra
              simp only [Bool.and_eq_true] at hcontra
              obtain ⟨haact, hpa⟩ := isActive_cancelIf hcontra.2
              rw [cancelIf_of_not hpa] at hcontra
              rw [← Bool.and_eq_true, ← Bool.and_eq_true] at hcontra
              rw [hcontra] at hpa
              exact absurd hpa (by simp)

/-- The appointment created by the C3 witness booking on `wfStore`. -/
def c3BookedAppt : Appointment :=
  { id := "a002", patientId := "p001", patientName := "John Doe",
    relationship := none, date := 20251025, time := "2:00 PM",
    type := "Filling", status := "scheduled", emergencyDetails := none,
    createdAt := some 5, bookedAt := none, cancelledAt := none,
    cancelReason := none, rescheduledFrom := none, rescheduledAt := none }

/-- The store produced by the C3 witness booking on `wfStore`. -/
def c3PostStore : DB :=
  { patients := [wfPatient]
    appointments := [mkCancelled wfAppt "overwritten_by_new_booking" 5,
      c3BookedAppt]
    availableSlots := [⟨20251025, ["10:00 AM", "9:00 AM"]⟩,
      ⟨20251026, ["1:00 PM"]⟩]
    emergencyAlerts := [] }

/-- Witness for C3: booking "2:00 PM" for the patient who already holds
"9:00 AM" on the same day cancels and releases the earlier appointment. -/
theorem claim_C3_witness :
    (∀ a ∈ wfStore.appointments, a.patientId = "p001" → a.date = 20251025 →
      isActive a = true →
      mkCancelled a "overwritten_by_new_booking" 5 ∈ c3PostStore.appointments ∧
      (a.time = "2:00 PM" ∨ a.time ∈ slotsOf c3PostStore.availableSlots 20251025)) ∧
    c3PostStore.appointments.filter
      (fun b => b.patientId == "p001" && b.date == 20251025 && isActive b) =
      [c3BookedAppt] ∧
    c3BookedAppt.status = "scheduled" :=
  claim_C3_booking_overwrites_same_day wfStore "p001" "John Doe" 20251025
    "2:00 PM" "Filling" none 5 c3BookedAppt c3PostStore (by decide)

/-! ### Claim C4 -/

theorem getD_map_length_findSlotDay (rows : List SlotDay) (d : Nat) :
    ((findSlotDay rows d).map (fun s => s.slots.length)).getD 0 =
      (slotsOf rows d).length := by
  unfold slotsOf
  cases findSlotDay rows d <;> simp

theorem getD_map_slots_findSlotDay (rows : List SlotDay) (d : Nat) :
    ((findSlotDay rows d).map (fun s => s.slots)).getD [] = slotsOf rows d := by
  unfold slotsOf
  cases findSlotDay rows d <;> simp

/-- A store for the C4 counterexample: the slot-day rows are *not* stored in
date order — the row for 20251030 precedes the row for 20251025, and both
later days have enough slots for a two-person family booking while the
preferred day 20251020 has only one. -/
def c4Store : DB :=
  { patients := [wfPatient]
    appointments := []
    availableSlots := [⟨20251020, ["9:00 AM"]⟩,
      ⟨20251030, ["9:00 AM", "10:00 AM"]⟩,
      ⟨20251025, ["9:00 AM", "10:00 AM"]⟩]
    emergencyAlerts := [] }

/-- Counterexample to C4 as stated: with one family member (needed = 2) the
preferred day 20251020 falls short, and although 20251025 is the *nearest*
later date with two open slots, the returned `InsufficientSlots` result
carries 20251030 — the first qualifying row in stored order, not the nearest
later date. -/
theorem claim_C4_counterexample :
    (bookFamilyAppointments c4Store "p001" [⟨"Jane Doe", "spouse", "Cleaning"⟩]
      20251020 "Cleaning" 0).1 =
      .insufficientSlots ["9:00 AM"] 20251030 ["9:00 AM", "10:00 AM"] ∧
    20251020 < 20251025 ∧ 20251025 < 20251030 ∧
    2 ≤ (slotsOf c4Store.availableSlots 20251025).length := by
  refine ⟨by decide, by decide, by decide, by decide⟩

/-- Claim C4 (amended): for every family booking request with `N` family
members where the preferred day's open-slot count after the pre-emption step
is less than `N + 1`, `bookFamily` books nothing and performs zero mutations
to the persisted stores; if some row strictly later than the preferred date
has at least `N + 1` open slots, the result is `InsufficientSlots` carrying
the *first such row in stored order* (the nearest such date only when the
rows are stored sorted by date) together with that row's first `N + 1`
slots; if no such row exists it fails with the generic capacity message. -/
theorem claim_C4_amended_insufficient_slots (σ : DB) (pid : String)
    (fam : List FamArg) (d : Nat) (pty : String) (now : Nat) (primary : Patient)
    (hfp : σ.patients.find? (fun p => p.id == pid) = some primary)
    (hne : fam ≠ [])
    (hv : fam.all validFamArg = true)
    (hcap : (slotsOf (famPreempt σ primary fam d now).availableSlots d).length <
      fam.length + 1) :
    (∀ next : SlotDay,
      (famPreempt σ primary fam d now).availableSlots.find? (fun s =>
        decide (d < s.date) && decide (fam.length + 1 ≤ s.slots.length)) =
        some next →
      bookFamilyAppointments σ pid fam d pty now =
        (.insufficientSlots
          (slotsOf (famPreempt σ primary fam d now).availableSlots d)
          next.date (next.slots.take (fam.length + 1)), σ) ∧
      d < next.date ∧ fam.length + 1 ≤ next.slots.length ∧
      ∃ l₁ l₂, (famPreempt σ primary fam d now).availableSlots =
        l₁ ++ next :: l₂ ∧
        ∀ s ∈ l₁, ¬ (d < s.date ∧ fam.length + 1 ≤ s.slots.length)) ∧
    ((famPreempt σ primary fam d now).availableSlots.find? (fun s =>
        decide (d < s.date) && decide (fam.length + 1 ≤ s.slots.length)) =
        none →
      bookFamilyAppointments σ pid fam d pty now = (.noCapacity, σ)) := by
  have hne' : fam.isEmpty = false := by
    cases fam with
    | nil => exact absurd rfl hne
    | cons a l => rfl
  have hgoal : bookFamilyAppointments σ pid fam d pty now =
      match (famPreempt σ primary fam d now).availableSlots.find? (fun s =>
        decide (d < s.date) && decide (fam.length + 1 ≤ s.slots.length)) with
      | some next =>
        (.insufficientSlots
          (slotsOf (famPreempt σ primary fam d now).availableSlots d)
          next.date (next.slots.take (fam.length + 1)), σ)
      | none => (.noCapacity, σ) := by
    simp only [bookFamilyAppointments, hfp, hne', Bool.false_eq_true, if_false,
      hv, Bool.not_true]
    rw [if_pos (by rw [getD_map_length_findSlotDay]; exact hcap)]
    rw [getD_map_slots_findSlotDay]
  constructor
  · intro next hnext
    refine ⟨by rw [hgoal, hnext], ?_, ?_, ?_⟩
    · have := List.find?_some hnext
      simp only [Bool.and_eq_true, decide_eq_true_eq] at this
      exact this.1
    · have := List.find?_some hnext
      simp only [Bool.and_eq_true, decide_eq_true_eq] at this
      exact this.2
    · obtain ⟨l₁, l₂, hd, hl₁, -⟩ := find?_decomp hnext
      refine ⟨l₁, l₂, hd, ?_⟩
      intro s hs hcontra
      have := hl₁ s hs
      simp only [Bool.and_eq_true, decide_eq_true_eq] at this
      rw [Bool.and_eq_false_iff] at this
      rcases this with h' | h' <;> simp only [decide_eq_false_iff_not] at h'
      · exact h' hcontra.1
      · exact h' hcontra.2
  · intro hnone
    rw [hgoal, hnone]

/-- Witness for the amended C4, on the deliberately unsorted `c4Store`: the
request books nothing, leaves the stores untouched, and proposes the first
stored qualifying row 20251030 with its first two slots. -/
theorem claim_C4_amended_witness :
    bookFamilyAppointments c4Store "p001" [⟨"Jane Doe", "spouse", "Cleaning"⟩]
      20251020 "Cleaning" 0 =
      (.insufficientSlots ["9:00 AM"] 20251030 ["9:00 AM", "10:00 AM"],
        c4Store) ∧
    20251020 < 20251030 ∧
    2 ≤ (["9:00 AM", "10:00 AM"] : List String).length :=
  have h := (claim_C4_amended_insufficient_slots c4Store "p001"
    [⟨"Jane Doe", "spouse", "Cleaning"⟩] 20251020 "Cleaning" 0 wfPatient
    (by decide) (by decide) (by decide) (by decide)).1
    ⟨20251030, ["9:00 AM", "10:00 AM"]⟩ (by decide)
  ⟨h.1, h.2.1, h.2.2.1⟩

/-! ### Claim C5 -/

/-- Claim C5: for every family booking request with `N` valid family members
on a preferred day holding at least `N + 1` open slots after pre-emption,
`bookFamily` succeeds, creates exactly `N + 1` appointments, assigns the
first available slot to the primary patient (an appointment with the
primary's patient id and appointment type `primaryType`), assigns the
subsequent slots to the family members in listed order, and removes exactly
the `N + 1` consumed time labels from that day's available list. -/
theorem claim_C5_family_booking_success (σ : DB) (pid : String)
    (fam : List FamArg) (d : Nat) (pty : String) (now : Nat) (primary : Patient)
    (hfp : σ.patients.find? (fun p => p.id == pid) = some primary)
    (hne : fam ≠ [])
    (hv : fam.all validFamArg = true)
    (hcap : fam.length + 1 ≤
      (slotsOf (famPreempt σ primary fam d now).availableSlots d).length) :
    ∃ (appts : List Appointment) (σ' : DB),
      bookFamilyAppointments σ pid fam d pty now = (.booked appts, σ') ∧
      appts.length = fam.length + 1 ∧
      appts.map (fun a => a.time) =
        (slotsOf (famPreempt σ primary fam d now).availableSlots d).take
          (fam.length + 1) ∧
      appts.map (fun a => a.patientName) =
        primary.fullName :: fam.map (fun m => m.name) ∧
      appts.head? = some (famPrimaryAppointment pid primary d
        (slotsOf (famPreempt σ primary fam d now).availableSlots d) pty now) ∧
      (famPrimaryAppointment pid primary d
        (slotsOf (famPreempt σ primary fam d now).availableSlots d) pty
        now).patientId = pid ∧
      (famPrimaryAppointment pid primary d
        (slotsOf (famPreempt σ primary fam d now).availableSlots d) pty
        now).type = pty ∧
      slotsOf σ'.availableSlots d =
        (slotsOf (famPreempt σ primary fam d now).availableSlots d).drop
          (fam.length + 1) := by
  have hne' : fam.isEmpty = false := by
    cases fam with
    | nil => exact absurd rfl hne
    | cons a l => rfl
  set σ₁ := famPreempt σ primary fam d now with hσ₁
  cases hfs : findSlotDay σ₁.availableSlots d with
  | none =>
    exfalso
    rw [show slotsOf σ₁.availableSlots d = [] from by unfold slotsOf; rw [hfs]]
      at hcap
    simp at hcap
  | some row =>
    have hSlotsOf : slotsOf σ₁.availableSlots d = row.slots := by
      unfold slotsOf; rw [hfs]
    have hrow : hasRow σ₁.availableSlots d = true := by
      unfold hasRow; rw [hfs]; rfl
    rw [hSlotsOf] at hcap ⊢
    have hgoal : bookFamilyAppointments σ pid fam d pty now =
        (let r := famLoop now primary.phone primary.dateOfBirth
          primary.insurance d row.slots fam 1 σ₁.patients
          [famPrimaryAppointment pid primary d row.slots pty now]
          primary.familyMembers
        (.booked r.2.1,
          { σ₁ with
            patients := updateFirst (fun p => p.id == pid)
              (fun p => { p with familyMembers := r.2.2 }) r.1
            appointments := σ₁.appointments ++ r.2.1
            availableSlots := updateSlots d (fun l => l.drop r.2.1.length)
              σ₁.availableSlots })) := by
      simp only [bookFamilyAppointments, hfp, hne', Bool.false_eq_true,
        if_false, hv, Bool.not_true, ← hσ₁, hfs, Option.map_some',
        Option.getD_some]
      rw [if_neg (by omega)]
    obtain ⟨hT, hN, hL, hM, hRest⟩ := famLoop_spec now primary.phone
      primary.dateOfBirth primary.insurance d row.slots fam 1
      σ₁.patients [famPrimaryAppointment pid primary d row.slots pty now]
      primary.familyMembers (by omega)
    set B := (famLoop now primary.phone primary.dateOfBirth
      primary.insurance d row.slots fam 1 σ₁.patients
      [famPrimaryAppointment pid primary d row.slots pty now]
      primary.familyMembers).2.1 with hB
    have hBlen : B.length = fam.length + 1 := by rw [hL]; simp; omega
    have hTimes : B.map (fun a => a.time) = row.slots.take (fam.length + 1) := by
      rw [hT]
      have h0 : 0 < row.slots.length := by omega
      have hcons : row.slots = row.slots[0] :: row.slots.drop 1 := by
        conv_lhs => rw [← List.drop_zero row.slots]
        rw [List.drop_eq_getElem_cons h0]
      rw [show ([famPrimaryAppointment pid primary d row.slots pty now].map
          (fun a => a.time)) = [row.slots.getD 0 ""] from by
        simp [famPrimaryAppointment]]
      rw [List.getD_eq_getElem row.slots "" h0]
      conv_rhs => rw [hcons]
      rw [List.take_succ_cons]
      simp
    refine ⟨B, _, by rw [hgoal], hBlen, hTimes, ?_, ?_, rfl, rfl, ?_⟩
    · rw [hN]
      simp [famPrimaryAppointment]
    · obtain ⟨rest, hrest⟩ := hRest
      rw [hrest]
      rfl
    · show slotsOf (updateSlots d (fun l => l.drop B.length)
        σ₁.availableSlots) d = row.slots.drop (fam.length + 1)
      rw [slotsOf_updateSlots, if_pos ⟨rfl, hrow⟩, hSlotsOf, hBlen]

/-- The one-member family request used by the C5 witness. -/
def c5Fam : List FamArg := [⟨"Jane Doe", "spouse", "Cleaning"⟩]

/-- Witness for C5: on `wfStore` (three open slots on 20251025 after
pre-emption releases "9:00 AM") a one-member family booking succeeds,
creating two appointments on consecutive slots with the primary first. -/
theorem claim_C5_witness :
    ∃ (appts : List Appointment) (σ' : DB),
      bookFamilyAppointments wfStore "p001" c5Fam 20251025 "Checkup" 99 =
        (.booked appts, σ') ∧
      appts.length = c5Fam.length + 1 ∧
      appts.map (fun a => a.time) =
        (slotsOf (famPreempt wfStore wfPatient c5Fam 20251025 99).availableSlots
          20251025).take (c5Fam.length + 1) ∧
      appts.map (fun a => a.patientName) =
        wfPatient.fullName :: c5Fam.map (fun m => m.name) ∧
      appts.head? = some (famPrimaryAppointment "p001" wfPatient 20251025
        (slotsOf (famPreempt wfStore wfPatient c5Fam 20251025 99).availableSlots
          20251025) "Checkup" 99) ∧
      (famPrimaryAppointment "p001" wfPatient 20251025
        (slotsOf (famPreempt wfStore wfPatient c5Fam 20251025 99).availableSlots
          20251025) "Checkup" 99).patientId = "p001" ∧
      (famPrimaryAppointment "p001" wfPatient 20251025
        (slotsOf (famPreempt wfStore wfPatient c5Fam 20251025 99).availableSlots
          20251025) "Checkup" 99).type = "Checkup" ∧
      slotsOf σ'.availableSlots 20251025 =
        (slotsOf (famPreempt wfStore wfPatient c5Fam 20251025 99).availableSlots
          20251025).drop (c5Fam.length + 1) :=
  claim_C5_family_booking_success wfStore "p001" c5Fam 20251025 "Checkup" 99
    wfPatient (by decide) (by decide) (by decide) (by decide)

/-! ### Claim C6 -/

theorem find?_append_of_none {α : Type} {p : α → Bool} {l₁ : List α}
    (l₂ : List α) (h : l₁.find? p = none) :
    (l₁ ++ l₂).find? p = l₂.find? p := by
  induction l₁ with
  | nil => rfl
  | cons x xs ih =>
    rw [List.find?_cons] at h
    split at h
    · exact absurd h (by simp)
    · next hx =>
      rw [List.cons_append, List.find?_cons, hx]
      exact ih h

theorem cancelIf_id {p : Appointment → Bool} {reason : String} {now : Nat}
    (a : Appointment) : (cancelIf p reason now a).id = a.id := by
  by_cases hpa : p a <;> simp [cancelIf, hpa, mkCancelled]

/-- Claim C6: for every valid booking (existing patient, matching name, open
slot, fresh generated id), after `book` the reserved (date, time) is absent
from that day's available list, and after a subsequent `cancel` of that same
appointment the time label is present in that day's list once more. -/
theorem claim_C6_book_cancel_round_trip (σ : DB) (pid pname : String)
    (d : Nat) (t ty : String) (ed : Option String) (now now' : Nat)
    (patient : Patient)
    (hfp : σ.patients.find? (fun p => p.id == pid) = some patient)
    (hname : patient.fullName = pname)
    (ht : t ∈ slotsOf σ.availableSlots d)
    (hfresh : ∀ b ∈ σ.appointments,
      b.id ≠ "a" ++ pad3 (σ.appointments.length + 1)) :
    ∃ (appt : Appointment) (σ₂ : DB),
      bookAppointment σ pid pname d t ty ed now = (.booked appt, σ₂) ∧
      t ∉ slotsOf σ₂.availableSlots d ∧
      (cancelAppointment σ₂ appt.id now').1.success = true ∧
      t ∈ slotsOf (cancelAppointment σ₂ appt.id now').2.availableSlots d := by
  have hrowσ : hasRow σ.availableSlots d = true := mem_slotsOf_hasRow ht
  set σ₁ := overwriteSameDay σ d
    (fun a => a.patientId == pid && a.date == d && isActive a)
    "overwritten_by_new_booking" now with hσ₁
  have hσ₁slots : σ₁.availableSlots = updateSlots d (releaseAll
      (σ.appointments.filter
        (fun a => a.patientId == pid && a.date == d && isActive a)))
      σ.availableSlots := rfl
  have hσ₁appts : σ₁.appointments = σ.appointments.map (cancelIf
      (fun a => a.patientId == pid && a.date == d && isActive a)
      "overwritten_by_new_booking" now) := rfl
  have ht₁ : t ∈ slotsOf σ₁.availableSlots d := by
    rw [hσ₁slots, slotsOf_updateSlots, if_pos ⟨rfl, hrowσ⟩]
    exact mem_releaseAll.2 (.inl ht)
  have hrow₁ : hasRow σ₁.availableSlots d = true := mem_slotsOf_hasRow ht₁
  have hlen₁ : σ₁.appointments.length = σ.appointments.length := by
    rw [hσ₁appts, List.length_map]
  cases hfs : findSlotDay σ₁.availableSlots d with
  | none =>
    exfalso
    rw [show slotsOf σ₁.availableSlots d = [] from by unfold slotsOf; rw [hfs]]
      at ht₁
    simp at ht₁
  | some ds =>
    have hds : t ∈ ds.slots := by
      rw [show ds.slots = slotsOf σ₁.availableSlots d from by
        unfold slotsOf; rw [hfs]]
      exact ht₁
    have hbook : bookAppointment σ pid pname d t ty ed now =
        (.booked (newBookedAppointment pid pname d t ty ed now
            σ₁.appointments.length),
          { σ₁ with
            appointments := σ₁.appointments ++
              [newBookedAppointment pid pname d t ty ed now
                σ₁.appointments.length]
            availableSlots := updateSlots d (fun l => l.filter (fun s => s != t))
              σ₁.availableSlots }) := by
      simp only [bookAppointment, hfp]
      rw [if_neg (show ¬ (patient.fullName != pname) = true by simp [hname])]
      rw [← hσ₁, hfs]
      simp only
      rw [if_neg (show ¬ (!ds.slots.contains t) = true by simpa using hds)]
    have hfind : (σ₁.appointments ++
        [newBookedAppointment pid pname d t ty ed now
          σ₁.appointments.length]).find?
          (fun a => a.id ==
            (newBookedAppointment pid pname d t ty ed now
              σ₁.appointments.length).id) =
        some (newBookedAppointment pid pname d t ty ed now
          σ₁.appointments.length) := by
      rw [find?_append_of_none _ ?_]
      · simp [List.find?_cons]
      · rw [List.find?_eq_none]
        intro x hx
        rw [hσ₁appts] at hx
        obtain ⟨a, ha, rfl⟩ := List.mem_map.1 hx
        rw [cancelIf_id]
        show ¬ (a.id == (newBookedAppointment pid pname d t ty ed now
          σ₁.appointments.length).id) = true
        simpa [newBookedAppointment, hlen₁] using hfresh a ha
    refine ⟨_, _, hbook, ?_, ?_, ?_⟩
    · show t ∉ slotsOf (updateSlots d (fun l => l.filter (fun s => s != t))
        σ₁.availableSlots) d
      rw [slotsOf_updateSlots, if_pos ⟨rfl, hrow₁⟩]
      simp
    · simp only [cancelAppointment, hfind]
      rfl
    · simp only [cancelAppointment, hfind]
      show t ∈ slotsOf (updateSlots d (fun l => releaseSlot l t)
        (updateSlots d (fun l => l.filter (fun s => s != t))
          σ₁.availableSlots)) d
      rw [slotsOf_updateSlots, if_pos ⟨rfl, by
        rw [hasRow_updateSlots]; exact hrow₁⟩]
      exact mem_releaseSlot.2 (.inr rfl)

/-- Witness for C6 on `wfStore`: book "2:00 PM" on 20251025, then cancel the
created appointment; the label leaves and re-enters the day's open list. -/
theorem claim_C6_witness :
    ∃ (appt : Appointment) (σ₂ : DB),
      bookAppointment wfStore "p001" "John Doe" 20251025 "2:00 PM" "Filling"
        none 5 = (.booked appt, σ₂) ∧
      "2:00 PM" ∉ slotsOf σ₂.availableSlots 20251025 ∧
      (cancelAppointment σ₂ appt.id 7).1.success = true ∧
      "2:00 PM" ∈ slotsOf (cancelAppointment σ₂ appt.id 7).2.availableSlots
        20251025 :=
  claim_C6_book_cancel_round_trip wfStore "p001" "John Doe" 20251025 "2:00 PM"
    "Filling" none 5 7 wfPatient (by decide) (by decide) (by decide) (by decide)

/-! ### Claim C7 -/

/-- Claim C7: `cancel` fails with `NotFound` when no appointment has the id,
and with `AlreadyCancelled` when the appointment is already cancelled — in
that case the slot is not re-released and the stores are unchanged;
otherwise it succeeds, returns the appointment's time to the day's available
list (the day's row exists for any appointment ever booked), and marks the
appointment cancelled. -/
theorem claim_C7_cancel_semantics (σ : DB) (aid : String) (now : Nat) :
    (σ.appointments.find? (fun a => a.id == aid) = none →
      cancelAppointment σ aid now = (.notFound, σ)) ∧
    (∀ a, σ.appointments.find? (fun a => a.id == aid) = some a →
      a.status = "cancelled" →
      cancelAppointment σ aid now = (.alreadyCancelled, σ)) ∧
    (∀ a, σ.appointments.find? (fun a => a.id == aid) = some a →
      a.status ≠ "cancelled" →
      (cancelAppointment σ aid now).1.success = true ∧
      (hasRow σ.availableSlots a.date = true →
        a.time ∈ slotsOf (cancelAppointment σ aid now).2.availableSlots a.date) ∧
      (cancelAppointment σ aid now).2.appointments.find?
          (fun b => b.id == aid) =
        some { a with status := "cancelled", cancelledAt := some now }) := by
  refine ⟨?_, ?_, ?_⟩
  · intro h
    simp only [cancelAppointment, h]
  · intro a hfp hst
    simp only [cancelAppointment, hfp]
    rw [if_pos (by simp [hst])]
  · intro a hfp hst
    have hbeq : ¬ (a.status == "cancelled") = true := by simpa using hst
    simp only [cancelAppointment, hfp]
    rw [if_neg hbeq]
    refine ⟨rfl, ?_, ?_⟩
    · intro hrow
      show a.time ∈ slotsOf (updateSlots a.date
        (fun l => releaseSlot l a.time) σ.availableSlots) a.date
      rw [slotsOf_updateSlots, if_pos ⟨rfl, hrow⟩]
      exact mem_releaseSlot.2 (.inr rfl)
    · obtain ⟨l₁, l₂, hdecomp, hl₁, hpx, hupd⟩ := updateFirst_eq_of_find?
        (fun b => { b with status := "cancelled", cancelledAt := some now }) hfp
      show (updateFirst (fun b => b.id == aid)
        (fun b => { b with status := "cancelled", cancelledAt := some now })
        σ.appointments).find? (fun b => b.id == aid) =
        some { a with status := "cancelled", cancelledAt := some now }
      rw [hupd, find?_append_of_none _ (List.find?_eq_none.2
        (fun y hy => by simpa using hl₁ y hy)), List.find?_cons]
      have : (({ a with status := "cancelled", cancelledAt := some now }
          : Appointment).id == aid) = true := hpx
      rw [this]

/-- Witness for C7: a missing id yields `NotFound`; cancelling the
already-cancelled `a001` of `cexStore` yields `AlreadyCancelled` with the
stores untouched; cancelling the active `a001` of `wfStore` succeeds,
releases "9:00 AM" back into 20251025's list and marks the record
cancelled. -/
theorem claim_C7_witness :
    cancelAppointment wfStore "nope" 7 = (.notFound, wfStore) ∧
    cancelAppointment cexStore "a001" 7 = (.alreadyCancelled, cexStore) ∧
    ((cancelAppointment wfStore "a001" 7).1.success = true ∧
      (hasRow wfStore.availableSlots wfAppt.date = true →
        wfAppt.time ∈
          slotsOf (cancelAppointment wfStore "a001" 7).2.availableSlots
            wfAppt.date) ∧
      (cancelAppointment wfStore "a001" 7).2.appointments.find?
          (fun b => b.id == "a001") =
        some { wfAppt with status := "cancelled", cancelledAt := some 7 }) :=
  ⟨(claim_C7_cancel_semantics wfStore "nope" 7).1 (by decide),
   (claim_C7_cancel_semantics cexStore "a001" 7).2.1 cexCancelledAppt
     (by decide) (by decide),
   (claim_C7_cancel_semantics wfStore "a001" 7).2.2 wfAppt
     (by decide) (by decide)⟩

/-! ### Claim C8 -/

/-- Claim C8: for every valid emergency notification, if a stored alert with
the same normalized contact phone lies within the trailing 10 minutes,
`notify` returns success and appends no new record; otherwise it appends
exactly one new alert with status "pending" — so two such calls within the
window produce exactly one stored alert. -/
theorem claim_C8_emergency_dedup_window (σ : DB) (n det p : String)
    (now : Nat) (nameN phN : String)
    (hn : validatePatientName n = some nameN)
    (hp : validatePhoneNumber p = some phN)
    (hd : 5 ≤ (trimStr det).length) :
    (σ.emergencyAlerts.any (fun alert =>
        alert.contactPhone == phN && now - 10 * 60 * 1000 ≤ alert.alertedAt) =
        true →
      notifyStaffEmergency σ n det p now = (.duplicateSuppressed, σ)) ∧
    (σ.emergencyAlerts.any (fun alert =>
        alert.contactPhone == phN && now - 10 * 60 * 1000 ≤ alert.alertedAt) =
        false →
      ∃ al : EmergencyAlert,
        notifyStaffEmergency σ n det p now =
          (.alerted al, { σ with emergencyAlerts := σ.emergencyAlerts ++ [al] }) ∧
        al.status = "pending" ∧ al.contactPhone = phN ∧ al.alertedAt = now) ∧
    (σ.emergencyAlerts.any (fun alert =>
        alert.contactPhone == phN && now - 10 * 60 * 1000 ≤ alert.alertedAt) =
        false →
      ∀ now₂ : Nat, now₂ - 10 * 60 * 1000 ≤ now →
        (notifyStaffEmergency (notifyStaffEmergency σ n det p now).2
            n det p now₂).2.emergencyAlerts.length =
          σ.emergencyAlerts.length + 1) := by
  have hgoal : notifyStaffEmergency σ n det p now =
      (if σ.emergencyAlerts.any (fun alert =>
          alert.contactPhone == phN && now - 10 * 60 * 1000 ≤ alert.alertedAt)
        then (.duplicateSuppressed, σ)
        else (.alerted
          { id := "emg_" ++ toString now, patientName := nameN,
            emergencyDetails := trimStr det, contactPhone := phN,
            timestamp := now, status := "pending", alertedAt := now },
          { σ with emergencyAlerts := σ.emergencyAlerts ++
            [{ id := "emg_" ++ toString now, patientName := nameN,
               emergencyDetails := trimStr det, contactPhone := phN,
               timestamp := now, status := "pending", alertedAt := now }] })) := by
    simp only [notifyStaffEmergency, hn, hp]
    rw [if_neg (by omega)]
  refine ⟨?_, ?_, ?_⟩
  · intro h
    rw [hgoal, if_pos h]
  · intro h
    exact ⟨_, by rw [hgoal, if_neg (by rw [h]; simp)], rfl, rfl, rfl⟩
  · intro h now₂ hwin
    rw [hgoal, if_neg (by rw [h]; simp)]
    have hgoal₂ : notifyStaffEmergency
        ({ σ with emergencyAlerts := σ.emergencyAlerts ++
          [{ id := "emg_" ++ toString now, patientName := nameN,
             emergencyDetails := trimStr det, contactPhone := phN,
             timestamp := now, status := "pending", alertedAt := now }] } : DB)
        n det p now₂ =
        (.duplicateSuppressed,
          { σ with emergencyAlerts := σ.emergencyAlerts ++
            [{ id := "emg_" ++ toString now, patientName := nameN,
               emergencyDetails := trimStr det, contactPhone := phN,
               timestamp := now, status := "pending", alertedAt := now }] }) := by
      simp only [notifyStaffEmergency, hn, hp]
      rw [if_neg (by omega)]
      rw [if_pos ?_]
      show (List.any _ _) = true
      rw [List.any_append]
      refine Bool.or_eq_true_iff.2 (.inr ?_)
      simp only [List.any_cons, List.any_nil, Bool.or_false]
      refine Bool.and_eq_true_iff.2 ⟨by simp, ?_⟩
      exact decide_eq_true hwin
    rw [hgoal₂]
    simp

/-- A store holding one pending alert for phone "5551234567" raised at time
1000, used by the C8 witness. -/
def c8Store : DB :=
  { patients := [], appointments := [], availableSlots := [],
    emergencyAlerts :=
      [{ id := "emg_1000", patientName := "John Doe",
         emergencyDetails := "severe pain", contactPhone := "5551234567",
         timestamp := 1000, status := "pending", alertedAt := 1000 }] }

/-- Witness for C8: a repeat notification at time 2000 (inside the
10-minute window of the stored alert at 1000) is suppressed on `c8Store`;
starting from the alert-free `wfStore`, a first call appends one pending
alert and a second call within the window leaves exactly one stored
alert. -/
theorem claim_C8_witness :
    notifyStaffEmergency c8Store "John Doe" "severe pain" "5551234567" 2000 =
      (.duplicateSuppressed, c8Store) ∧
    (∃ al : EmergencyAlert,
      notifyStaffEmergency wfStore "John Doe" "severe pain" "5551234567" 2000 =
        (.alerted al,
          { wfStore with emergencyAlerts := wfStore.emergencyAlerts ++ [al] }) ∧
      al.status = "pending" ∧ al.contactPhone = "5551234567" ∧
      al.alertedAt = 2000) ∧
    (notifyStaffEmergency
        (notifyStaffEmergency wfStore "John Doe" "severe pain" "5551234567"
          2000).2
        "John Doe" "severe pain" "5551234567" 3000).2.emergencyAlerts.length =
      wfStore.emergencyAlerts.length + 1 :=
  ⟨(claim_C8_emergency_dedup_window c8Store "John Doe" "severe pain"
      "5551234567" 2000 "John Doe" "5551234567" (by decide) (by decide)
      (by decide)).1 (by decide),
   (claim_C8_emergency_dedup_window wfStore "John Doe" "severe pain"
      "5551234567" 2000 "John Doe" "5551234567" (by decide) (by decide)
      (by decide)).2.1 (by decide),
   (claim_C8_emergency_dedup_window wfStore "John Doe" "severe pain"
      "5551234567" 2000 "John Doe" "5551234567" (by decide) (by decide)
      (by decide)).2.2 (by decide) 3000 (by decide)⟩

/-! ### Claim C9 -/

/-- Claim C9: phone normalization strips non-digits and drops a leading "1"
from an 11-digit number; `search_patient` with "555-123-4567" and with
"15551234567" performs the lookup with the same key "5551234567" (the two
searches are equal on every store, and the lookup goes through
`findPatientByPhone` with that key), while any phone whose normalization is
not exactly 10 digits is rejected as a validation failure. -/
theorem claim_C9_phone_normalization :
    validatePhoneNumber "555-123-4567" = some "5551234567" ∧
    validatePhoneNumber "15551234567" = some "5551234567" ∧
    (∀ σ : DB, searchPatient σ (some "555-123-4567") none =
      searchPatient σ (some "15551234567") none) ∧
    (∀ σ : DB, searchPatient σ (some "555-123-4567") none =
      match findPatientByPhone σ.patients "5551234567" with
      | some p => .found p (σ.appointments.filter
          (fun a => a.patientId == p.id && isActive a)) p.familyMembers
      | none => .notFound) ∧
    (∀ ph : String, (validatePhoneNumber ph).isSome = true ↔
      (normalizePhone ph).length = 10) := by
  have h1 : validatePhoneNumber "555-123-4567" = some "5551234567" := by decide
  have h2 : validatePhoneNumber "15551234567" = some "5551234567" := by decide
  refine ⟨h1, h2, ?_, ?_, ?_⟩
  · intro σ
    simp only [searchPatient, h1, h2]
  · intro σ
    simp only [searchPatient, h1]
    cases hf : findPatientByPhone σ.patients "5551234567" <;> simp
  · intro ph
    by_cases h0 : (ph == "") = true
    · simp [validatePhoneNumber, normalizePhone, h0]
    · simp only [validatePhoneNumber, normalizePhone, h0, Bool.false_eq_true,
        if_false]
      by_cases h10 : ((digitsOf ph).length == 10) = true
      · rw [if_pos h10]
        have hL : (digitsOf ph).length = 10 := by simpa using h10
        have h11 : ((digitsOf ph).length == 11 &&
            (digitsOf ph).head? == some '1') = false := by
          simp [hL]
        rw [h11]
        simp only [Bool.false_eq_true, if_false]
        constructor
        · intro _
          show (String.mk (digitsOf ph)).length = 10
          simpa using hL
        · intro _
          rfl
      · rw [if_neg h10]
        have hL : ¬ (digitsOf ph).length = 10 := by simpa using h10
        by_cases h11 : ((digitsOf ph).length == 11 &&
            (digitsOf ph).head? == some '1') = true
        · rw [if_pos h11, if_pos h11]
          have hL11 : (digitsOf ph).length = 11 := by
            have := (Bool.and_eq_true_iff.1 h11).1
            simpa using this
          constructor
          · intro _
            show (String.mk (digitsOf ph).tail).length = 10
            simp [hL11]
          · intro _
            rfl
        · rw [if_neg h11, if_neg h11]
          simp only [Option.isSome_none]
          constructor
          · intro hc
            exact absurd hc (by simp)
          · intro hc
            exact absurd (by simpa using hc) hL

/-! ### Claim C10 -/

/-- Claim C10: `reschedule` never inspects the appointment's status — for an
appointment that is already cancelled, rescheduling to an open slot
succeeds, removes the new time label from the new day's available list,
re-inserts the old time label into the old day's list if absent (provided
the old day's row exists and the old slot is not the very one being
reserved), and updates the appointment's date and time in place while its
status remains "cancelled". -/
theorem claim_C10_reschedule_ignores_status (σ : DB) (aid : String)
    (nd : Nat) (nt : String) (now : Nat) (a : Appointment) (row : SlotDay)
    (hfp : σ.appointments.find? (fun b => b.id == aid) = some a)
    (hst : a.status = "cancelled")
    (hfs : findSlotDay σ.availableSlots nd = some row)
    (hnt : nt ∈ row.slots) :
    ∃ σ' : DB,
      rescheduleAppointment σ aid nd nt now =
        (.rescheduled
          { a with
            date := nd, time := nt,
            rescheduledFrom := some (a.date, a.time),
            rescheduledAt := some now }, σ') ∧
      ({ a with
         date := nd, time := nt,
         rescheduledFrom := some (a.date, a.time),
         rescheduledAt := some now } : Appointment).status = "cancelled" ∧
      nt ∉ slotsOf σ'.availableSlots nd ∧
      (¬ (a.date = nd ∧ a.time = nt) →
        hasRow σ.availableSlots a.date = true →
        a.time ∈ slotsOf σ'.availableSlots a.date) ∧
      σ'.appointments.find? (fun b => b.id == aid) =
        some { a with
          date := nd, time := nt,
          rescheduledFrom := some (a.date, a.time),
          rescheduledAt := some now } := by
  have hrownd : hasRow σ.availableSlots nd = true := by
    unfold hasRow; rw [hfs]; rfl
  have hgoal : rescheduleAppointment σ aid nd nt now =
      (.rescheduled
        { a with
          date := nd, time := nt,
          rescheduledFrom := some (a.date, a.time),
          rescheduledAt := some now },
        { σ with
          availableSlots :=
            updateSlots nd (fun l => l.filter (fun s => s != nt))
              (updateSlots a.date (fun l => releaseSlot l a.time)
                σ.availableSlots)
          appointments :=
            updateFirst (fun b => b.id == aid)
              (fun b =>
                { b with
                  date := nd, time := nt,
                  rescheduledFrom := some (b.date, b.time),
                  rescheduledAt := some now })
              σ.appointments }) := by
    simp only [rescheduleAppointment, hfp, hfs]
    rw [if_neg (show ¬ (!row.slots.contains nt) = true by simpa using hnt)]
  refine ⟨_, hgoal, hst, ?_, ?_, ?_⟩
  · show nt ∉ slotsOf (updateSlots nd (fun l => l.filter (fun s => s != nt))
      (updateSlots a.date (fun l => releaseSlot l a.time) σ.availableSlots)) nd
    rw [slotsOf_updateSlots, if_pos ⟨rfl, by rw [hasRow_updateSlots]; exact hrownd⟩]
    simp
  · intro hne hrowa
    show a.time ∈ slotsOf (updateSlots nd (fun l => l.filter (fun s => s != nt))
      (updateSlots a.date (fun l => releaseSlot l a.time) σ.availableSlots)) a.date
    have hmem₁ : a.time ∈ slotsOf (updateSlots a.date
        (fun l => releaseSlot l a.time) σ.availableSlots) a.date := by
      rw [slotsOf_updateSlots, if_pos ⟨rfl, hrowa⟩]
      exact mem_releaseSlot.2 (.inr rfl)
    rw [slotsOf_updateSlots]
    split
    · next hcond =>
      rw [List.mem_filter]
      refine ⟨hmem₁, ?_⟩
      have : ¬ a.time = nt := fun he => hne ⟨hcond.1, he⟩
      simpa using this
    · exact hmem₁
  · obtain ⟨l₁, l₂, hdecomp, hl₁, hpx, hupd⟩ := updateFirst_eq_of_find?
      (fun b =>
        { b with
          date := nd, time := nt,
          rescheduledFrom := some (b.date, b.time),
          rescheduledAt := some now }) hfp
    show (updateFirst (fun b => b.id == aid) _ σ.appointments).find?
      (fun b => b.id == aid) = _
    rw [hupd, find?_append_of_none _ (List.find?_eq_none.2
      (fun y hy => by simpa using hl₁ y hy)), List.find?_cons]
    have : (({ a with
        date := nd, time := nt,
        rescheduledFrom := some (a.date, a.time),
        rescheduledAt := some now } : Appointment).id == aid) = true := hpx
    rw [this]

/-- Witness for C10: in `cexStore` the appointment `a001` is cancelled, yet
rescheduling it from (1, "9:00 AM") to the open (2, "1:00 PM") succeeds,
consumes "1:00 PM", re-inserts "9:00 AM" into day 1, and leaves the record
cancelled. -/
theorem claim_C10_witness :
    ∃ σ' : DB,
      rescheduleAppointment cexStore "a001" 2 "1:00 PM" 99 =
        (.rescheduled
          { cexCancelledAppt with
            date := 2, time := "1:00 PM",
            rescheduledFrom := some (cexCancelledAppt.date, cexCancelledAppt.time),
            rescheduledAt := some 99 }, σ') ∧
      ({ cexCancelledAppt with
         date := 2, time := "1:00 PM",
         rescheduledFrom := some (cexCancelledAppt.date, cexCancelledAppt.time),
         rescheduledAt := some 99 } : Appointment).status = "cancelled" ∧
      "1:00 PM" ∉ slotsOf σ'.availableSlots 2 ∧
      (¬ (cexCancelledAppt.date = 2 ∧ cexCancelledAppt.time = "1:00 PM") →
        hasRow cexStore.availableSlots cexCancelledAppt.date = true →
        cexCancelledAppt.time ∈ slotsOf σ'.availableSlots cexCancelledAppt.date) ∧
      σ'.appointments.find? (fun b => b.id == "a001") =
        some { cexCancelledAppt with
          date := 2, time := "1:00 PM",
          rescheduledFrom := some (cexCancelledAppt.date, cexCancelledAppt.time),
          rescheduledAt := some 99 } :=
  claim_C10_reschedule_ignores_status cexStore "a001" 2 "1:00 PM" 99
    cexCancelledAppt ⟨2, ["1:00 PM"]⟩ (by decide) (by decide) (by decide)
    (by decide)

end Dental
